import Mathlib

/-!
Verification of the strandnerd crawler against its specification.

Go strings are modelled as lists of characters (the repository only ever
feeds ASCII literals through the byte-indexed operations that the claims
touch, so character granularity and byte granularity coincide there).
Each definition is a shallow embedding of the correspondingly named Go
function; doc comments name the source file.
-/

namespace Crawler

/-- Go unicode.IsSpace on the ASCII range (space, tab, newline, vertical
tab, form feed, carriage return), the only characters the crawler's
inputs exercise. -/
def goIsSpace (c : Char) : Bool :=
  c = ' ' || c = '\t' || c = '\n' || c = '\x0b' || c = '\x0c' || c = '\r'

/-- Go strings.TrimSpace: drop whitespace from both ends. -/
def goTrimSpace (s : List Char) : List Char :=
  ((s.dropWhile goIsSpace).reverse.dropWhile goIsSpace).reverse

/-- Accumulator-style worker for goFields: cur holds the current word
reversed. -/
def goFieldsAux : List Char → List Char → List (List Char)
  | cur, [] => if cur.isEmpty then [] else [cur.reverse]
  | cur, c :: rest =>
    if goIsSpace c then
      if cur.isEmpty then goFieldsAux [] rest
      else cur.reverse :: goFieldsAux [] rest
    else goFieldsAux (c :: cur) rest

/-- Go strings.Fields: split around runs of whitespace. -/
def goFields (s : List Char) : List (List Char) := goFieldsAux [] s

/-- Worker for goCount: the greedy left-to-right non-overlapping scan
performed by Go strings.Count for a non-empty pattern.  After a match
the scan skips the remaining pattern length, recorded in the skip
argument so that the recursion is structural. -/
def goCountAux (pat : List Char) : List Char → Nat → Nat
  | [], _ => 0
  | _ :: rest, skip + 1 => goCountAux pat rest skip
  | c :: rest, 0 =>
    if pat.isPrefixOf (c :: rest) then 1 + goCountAux pat rest (pat.length - 1)
    else goCountAux pat rest 0

/-- Go strings.Count: number of non-overlapping instances of pat in s
(for the empty pattern Go returns the rune count plus one). -/
def goCount (pat s : List Char) : Nat :=
  match pat with
  | [] => s.length + 1
  | p :: ps => goCountAux (p :: ps) s 0

/-- Go strings.ToLower on the ASCII range. -/
def goToLower (s : List Char) : List Char := s.map Char.toLower

/-! ## Content quality gate (content_extractor.go, isGoodContent) -/

/-- The navigation keyword list of isGoodContent (content_extractor.go). -/
def navKeywords : List (List Char) :=
  ["menu".toList, "navigation".toList, "subscribe".toList, "newsletter".toList,
   "follow us".toList, "social media".toList, "share this".toList]

/-- Shallow embedding of isGoodContent (content_extractor.go).  The
parameter extractText abstracts extractTextFromHTML, the visible-text
extraction of the Go html parser (on markup-free input it is the
identity).  The two float64 threshold comparisons of the source,
len(text)/len(content) < 0.1 and navCount/len(words) > 0.2, are
modelled exactly by integer cross-multiplication. -/
def isGoodContent (extractText : List Char → List Char) (content : List Char) : Bool :=
  if content.isEmpty then false
  else if (goTrimSpace (extractText content)).length < 100 then false
  else if (goFields (goTrimSpace (extractText content))).length < 20 then false
  else if 10 * (goTrimSpace (extractText content)).length < content.length then false
  else if 5 * ((navKeywords.map (fun w =>
           goCount w (goToLower (goTrimSpace (extractText content))))).sum) >
         (goFields (goTrimSpace (extractText content))).length then false
  else true

/-- The ten-character snippet of the quality-gate example. -/
def snippetTen : List Char := "short text".toList

/-- The 300-character, 40-word markup-free prose paragraph of the
quality-gate example (no navigation keywords occur in it). -/
def proseParagraph : List Char :=
  ("Morning sunlight settled quietly across the harbor while fishermen " ++
   "prepared their wooden boats checking ropes baskets and weathered sails " ++
   "before departure Merchants put fresh produce along cobbled lanes " ++
   "greeting neighbors warmly while children hurried towards schools " ++
   "carrying satchels laughing today").toList

/-- One repetition block of the navigation-spam example, with the
separating space. -/
def navBlock : List Char := "menu navigation subscribe newsletter ".toList

/-- The final repetition block, without a trailing space. -/
def navLast : List Char := "menu navigation subscribe newsletter".toList

/-- A string consisting of k+1 repetitions of
"menu navigation subscribe newsletter", space separated. -/
def navSpam : Nat → List Char
  | 0 => navLast
  | k + 1 => navBlock ++ navSpam k

/-! ## Helper lemmas about the string utilities -/

lemma goFieldsAux_length_le (s : List Char) :
    ∀ cur, (goFieldsAux cur s).length ≤ s.countP (fun c => goIsSpace c) + 1 := by
  induction s with
  | nil =>
    intro cur
    simp only [goFieldsAux, List.countP_nil]
    split <;> simp
  | cons c rest ih =>
    intro cur
    simp only [goFieldsAux, List.countP_cons]
    cases hs : goIsSpace c
    · have := ih (c :: cur)
      simp [hs]
      omega
    · cases hc : cur.isEmpty
      · have := ih []
        simp [hs, hc]
        omega
      · have := ih []
        simp [hs, hc]
        omega

/-- The number of whitespace-separated fields is at most the whitespace
count plus one. -/
lemma goFields_length_le (s : List Char) :
    (goFields s).length ≤ s.countP (fun c => goIsSpace c) + 1 :=
  goFieldsAux_length_le s []

lemma goCountAux_skip (pat : List Char) :
    ∀ (xs s : List Char), goCountAux pat (xs ++ s) xs.length = goCountAux pat s 0 := by
  intro xs
  induction xs with
  | nil => intro s; rfl
  | cons c rest ih =>
    intro s
    simpa [goCountAux] using ih s

lemma goCountAux_self_headed (p : Char) (ps : List Char) (s : List Char) :
    goCountAux (p :: ps) ((p :: ps) ++ s) 0 = 1 + goCountAux (p :: ps) s 0 := by
  have hpre : ps.isPrefixOf (ps ++ s) = true := by
    simp [List.isPrefixOf_iff_prefix]
  simp only [List.cons_append, goCountAux, List.isPrefixOf, List.append_eq, hpre,
    beq_self_eq_true, Bool.true_and, if_true, List.length_cons, Nat.add_sub_cancel]
  have := goCountAux_skip (p :: ps) ps s
  omega

lemma goCountAux_no_head (p : Char) (ps : List Char) :
    ∀ (xs s : List Char), (∀ c ∈ xs, c ≠ p) →
      goCountAux (p :: ps) (xs ++ s) 0 = goCountAux (p :: ps) s 0 := by
  intro xs
  induction xs with
  | nil => intro s _; rfl
  | cons c rest ih =>
    intro s hnc
    have hcp : (p == c) = false :=
      beq_eq_false_iff_ne.mpr (fun h => (hnc c (by simp)) h.symm)
    simp only [List.cons_append, goCountAux, List.isPrefixOf, hcp, Bool.false_and,
      Bool.false_eq_true, if_false]
    exact ih s (fun d hd => hnc d (by simp [hd]))

/-! ## Facts about the navigation-spam family -/

/-- The pattern "menu" as a character list. -/
def menuChars : List Char := "menu".toList

/-- The navigation block after its leading "menu". -/
def navBlockTail : List Char := " navigation subscribe newsletter ".toList

lemma navBlock_split : navBlock = menuChars ++ navBlockTail := by decide

lemma navSpam_cons (k : Nat) : ∃ t, navSpam k = 'm' :: t := by
  cases k with
  | zero => exact ⟨navLast.tail, rfl⟩
  | succ k => exact ⟨navBlock.tail ++ navSpam k, rfl⟩

lemma navSpam_append_navLast (k : Nat) : ∃ p, navSpam k = p ++ navLast := by
  induction k with
  | zero => exact ⟨[], rfl⟩
  | succ k ih =>
    obtain ⟨p, hp⟩ := ih
    exact ⟨navBlock ++ p, by simp [navSpam, hp]⟩

lemma navLast_reverse :
    navLast.reverse = 'r' :: "ettelswen ebircsbus noitagivan unem".toList := by decide

lemma goTrimSpace_navSpam (k : Nat) : goTrimSpace (navSpam k) = navSpam k := by
  obtain ⟨t, ht⟩ := navSpam_cons k
  obtain ⟨p, hp⟩ := navSpam_append_navLast k
  have hm : goIsSpace 'm' = false := by decide
  have hr : goIsSpace 'r' = false := by decide
  have h1 : (navSpam k).dropWhile goIsSpace = navSpam k := by
    rw [ht, List.dropWhile_cons, hm]
    simp
  have h2 : ∀ z : List Char,
      (navLast.reverse ++ z).dropWhile goIsSpace = navLast.reverse ++ z := by
    intro z
    rw [navLast_reverse, List.cons_append, List.dropWhile_cons, hr]
    simp
  unfold goTrimSpace
  rw [h1]
  conv_lhs => rw [hp, List.reverse_append]
  rw [h2, ← List.reverse_append, ← hp, List.reverse_reverse]

lemma goToLower_navSpam (k : Nat) : goToLower (navSpam k) = navSpam k := by
  induction k with
  | zero => decide
  | succ k ih =>
    have hb : List.map Char.toLower navBlock = navBlock := by decide
    simp only [goToLower] at ih ⊢
    simp only [navSpam, List.map_append, hb, ih]

lemma goCountAux_menu_navSpam (k : Nat) :
    goCountAux menuChars (navSpam k) 0 = k + 1 := by
  induction k with
  | zero => decide
  | succ k ih =>
    have hm : ∀ c ∈ navBlockTail, c ≠ 'm' := by decide
    show goCountAux menuChars (navBlock ++ navSpam k) 0 = k + 2
    rw [navBlock_split, List.append_assoc,
      show menuChars = 'm' :: "enu".toList from rfl]
    rw [goCountAux_self_headed 'm' ("enu".toList) (navBlockTail ++ navSpam k)]
    rw [goCountAux_no_head 'm' ("enu".toList) navBlockTail (navSpam k) hm]
    rw [show ('m' :: "enu".toList) = menuChars from rfl, ih]
    omega

lemma navSpam_countP_space (k : Nat) :
    (navSpam k).countP (fun c => goIsSpace c) = 4 * k + 3 := by
  induction k with
  | zero => decide
  | succ k ih =>
    have hb : navBlock.countP (fun c => goIsSpace c) = 4 := by decide
    show (navBlock ++ navSpam k).countP (fun c => goIsSpace c) = 4 * (k + 1) + 3
    rw [List.countP_append, hb, ih]
    ring

lemma isGoodContent_false_iff (extract : List Char → List Char) (content : List Char) :
    isGoodContent extract content = false ↔
      content = [] ∨
      (goTrimSpace (extract content)).length < 100 ∨
      (goFields (goTrimSpace (extract content))).length < 20 ∨
      10 * (goTrimSpace (extract content)).length < content.length ∨
      5 * ((navKeywords.map (fun w =>
            goCount w (goToLower (goTrimSpace (extract content))))).sum) >
        (goFields (goTrimSpace (extract content))).length := by
  unfold isGoodContent
  split_ifs with h1 h2 h3 h4 h5
  · simp only [List.isEmpty_iff] at h1
    simp [h1]
  · simp [h2]
  · simp [h3]
  · simp [h4]
  · simp [h5]
  · simp only [List.isEmpty_iff] at h1
    rw [iff_false_intro h1]
    simp only [false_or]
    constructor
    · intro h
      simp at h
    · intro h
      exfalso
      rcases h with h | h | h | h
      · exact h2 h
      · exact h3 h
      · exact h4 h
      · exact h5 h

lemma isGoodContent_navSpam (k : Nat) : isGoodContent id (navSpam k) = false := by
  rw [isGoodContent_false_iff]
  simp only [id_eq, goTrimSpace_navSpam, goToLower_navSpam]
  have hwords : (goFields (navSpam k)).length ≤ 4 * k + 4 := by
    have h1 := goFields_length_le (navSpam k)
    have h2 := navSpam_countP_space k
    omega
  have hcount : goCount menuChars (navSpam k) = k + 1 := goCountAux_menu_navSpam k
  have hsum : ∃ r, ((navKeywords.map (fun w => goCount w (navSpam k))).sum) = (k + 1) + r := by
    refine ⟨(("navigation".toList :: "subscribe".toList :: "newsletter".toList ::
      "follow us".toList :: "social media".toList :: "share this".toList ::
      []).map (fun w => goCount w (navSpam k))).sum, ?_⟩
    show ((menuChars :: "navigation".toList :: "subscribe".toList :: "newsletter".toList ::
      "follow us".toList :: "social media".toList :: "share this".toList ::
      []).map (fun w => goCount w (navSpam k))).sum = _
    rw [List.map_cons, List.sum_cons, hcount]
  obtain ⟨r, hr⟩ := hsum
  right; right; right; right
  rw [hr]
  omega

/-- C6: isGoodContent returns false exactly when the content is empty, its
trimmed visible text is shorter than 100 characters, its visible text has
fewer than 20 whitespace-separated words, the visible-to-raw length ratio
is below one tenth, or the navigation-keyword occurrence count exceeds one
fifth of the word count; and it returns true otherwise.  In particular a
ten-character snippet is rejected, the 300-character 40-word prose
paragraph with no navigation keywords is accepted, and every repetition
count of "menu navigation subscribe newsletter" is rejected. -/
theorem isGoodContent_quality_gate :
    (∀ (extractText : List Char → List Char) (content : List Char),
       isGoodContent extractText content = false ↔
         content = [] ∨
         (goTrimSpace (extractText content)).length < 100 ∨
         (goFields (goTrimSpace (extractText content))).length < 20 ∨
         10 * (goTrimSpace (extractText content)).length < content.length ∨
         5 * ((navKeywords.map (fun w =>
               goCount w (goToLower (goTrimSpace (extractText content))))).sum) >
           (goFields (goTrimSpace (extractText content))).length) ∧
    isGoodContent id snippetTen = false ∧
    isGoodContent id proseParagraph = true ∧
    (∀ k : Nat, isGoodContent id (navSpam k) = false) := by
  refine ⟨isGoodContent_false_iff, by decide, ?_, isGoodContent_navSpam⟩
  set_option maxRecDepth 100000 in decide

/-! ## Field structure lemmas used by the selector engine -/

lemma goFieldsAux_word (w : List Char) (hw : ∀ c ∈ w, goIsSpace c = false) :
    ∀ (cur s : List Char), goFieldsAux cur (w ++ s) = goFieldsAux (w.reverse ++ cur) s := by
  induction w with
  | nil => intro cur s; rfl
  | cons c w' ih =>
    intro cur s
    have hc : goIsSpace c = false := hw c (by simp)
    simp only [List.cons_append, List.append_eq, goFieldsAux, hc, Bool.false_eq_true,
      if_false]
    rw [ih (fun d hd => hw d (by simp [hd])) (c :: cur) s]
    simp [List.append_assoc]

lemma goFieldsAux_stop (cur : List Char) (hcur : cur ≠ []) (s : List Char) :
    goFieldsAux cur (' ' :: s) = cur.reverse :: goFieldsAux [] s := by
  have : cur.isEmpty = false := by simpa [List.isEmpty_iff] using hcur
  simp [goFieldsAux, this, goIsSpace]

lemma goFields_word_only (w : List Char) (hne : w ≠ [])
    (hw : ∀ c ∈ w, goIsSpace c = false) : goFields w = [w] := by
  have h1 : goFieldsAux [] (w ++ []) = goFieldsAux (w.reverse ++ []) [] :=
    goFieldsAux_word w hw [] []
  have h2 : w.reverse.isEmpty = false := by
    simpa [List.isEmpty_iff] using hne
  simp only [List.append_nil] at h1
  unfold goFields
  rw [h1]
  simp [goFieldsAux, h2]

lemma goFields_intercalate (ps : List (List Char))
    (hne : ∀ w ∈ ps, w ≠ []) (hw : ∀ w ∈ ps, ∀ c ∈ w, goIsSpace c = false) :
    goFields (List.intercalate (" ".toList) ps) = ps := by
  induction ps with
  | nil => rfl
  | cons w rest ih =>
    cases rest with
    | nil =>
      simp only [List.intercalate, List.intersperse, List.flatten]
      simpa using goFields_word_only w (hne w (by simp)) (hw w (by simp))
    | cons x rest' =>
      have hstep : List.intercalate (" ".toList) (w :: x :: rest') =
          w ++ ' ' :: List.intercalate (" ".toList) (x :: rest') := by
        simp [List.intercalate, List.intersperse]
      rw [hstep]
      unfold goFields
      rw [goFieldsAux_word w (hw w (by simp)) [] _]
      rw [List.append_nil, goFieldsAux_stop w.reverse
        (by simpa [List.isEmpty_iff, List.reverse_eq_nil_iff] using hne w (by simp) : w.reverse ≠ []) _]
      rw [List.reverse_reverse]
      have ihr := ih (fun v hv => hne v (by simp [hv])) (fun v hv => hw v (by simp [hv]))
      unfold goFields at ihr
      rw [ihr]

lemma goFieldsAux_members (s : List Char) :
    ∀ cur, (∀ c ∈ cur, goIsSpace c = false) →
      ∀ w ∈ goFieldsAux cur s, w ≠ [] ∧ ∀ c ∈ w, goIsSpace c = false := by
  induction s with
  | nil =>
    intro cur hcur w hwmem
    simp only [goFieldsAux] at hwmem
    by_cases hc : cur.isEmpty
    · simp [hc] at hwmem
    · simp only [hc, Bool.false_eq_true, if_false, List.mem_singleton] at hwmem
      subst hwmem
      refine ⟨by simpa [List.reverse_eq_nil_iff, List.isEmpty_iff] using hc, ?_⟩
      intro c hc2
      exact hcur c (by simpa using hc2)
  | cons c rest ih =>
    intro cur hcur w hwmem
    simp only [goFieldsAux] at hwmem
    cases hs : goIsSpace c
    · simp only [hs, Bool.false_eq_true, if_false] at hwmem
      exact ih (c :: cur) (by
        intro d hd
        rcases List.mem_cons.mp hd with h | h
        · exact h ▸ hs
        · exact hcur d h) w hwmem
    · simp only [hs, if_true] at hwmem
      by_cases hc : cur.isEmpty
      · simp only [hc, if_true] at hwmem
        exact ih [] (by simp) w hwmem
      · simp only [hc, Bool.false_eq_true, if_false, List.mem_cons] at hwmem
        rcases hwmem with h | h
        · subst h
          refine ⟨by simpa [List.reverse_eq_nil_iff, List.isEmpty_iff] using hc, ?_⟩
          intro d hd
          exact hcur d (by simpa using hd)
        · exact ih [] (by simp) w h

/-- Every field produced by goFields is non-empty and whitespace-free. -/
lemma goFields_members (s : List Char) :
    ∀ w ∈ goFields s, w ≠ [] ∧ ∀ c ∈ w, goIsSpace c = false :=
  goFieldsAux_members s [] (by simp)

/-! ## DOM selector engine (content_extractor.go) -/

/-- Node kinds of the golang.org/x/net/html package that the selector
engine distinguishes. -/
inductive GoNodeType
  | elementNode
  | textNode
  | otherNode
deriving DecidableEq

/-- One HTML attribute. -/
structure GoAttr where
  key : List Char
  val : List Char
deriving DecidableEq

/-- An html.Node as seen by the matching logic: its type, its tag name
(the Data field) and its attributes.  The parent chain is carried
separately as the list of ancestor nodes, nearest first. -/
structure GoNode where
  type : GoNodeType
  data : List Char
  attr : List GoAttr
deriving DecidableEq

/-- Go strings.Trim: drop characters of the cutset from both ends. -/
def goTrimCutset (cut : List Char) (s : List Char) : List Char :=
  ((s.dropWhile (cut.contains ·)).reverse.dropWhile (cut.contains ·)).reverse

/-- Shallow embedding of matchesSimpleSelector (content_extractor.go):
attribute selector, then id, then class, then bare tag name. -/
def matchesSimpleSelector (n : GoNode) (selector0 : List Char) : Bool :=
  let selector := goTrimSpace selector0
  if ("[".toList).isPrefixOf selector && ("]".toList).isSuffixOf selector then
    let attrPart := goTrimCutset ("[]".toList) selector
    if attrPart.contains '=' then
      let attrName := goTrimSpace (attrPart.takeWhile (fun c => c ≠ '='))
      let attrValue := goTrimCutset (Char.ofNat 39 :: '"' :: [])
        (goTrimSpace ((attrPart.dropWhile (fun c => c ≠ '=')).drop 1))
      n.attr.any (fun a => a.key == attrName && a.val == attrValue)
    else
      n.attr.any (fun a => a.key == goTrimSpace attrPart)
  else if ("#".toList).isPrefixOf selector then
    n.attr.any (fun a => a.key == "id".toList && a.val == selector.drop 1)
  else if (".".toList).isPrefixOf selector then
    n.attr.any (fun a => a.key == "class".toList &&
      (goFields a.val).contains (selector.drop 1))
  else
    n.data == selector

/-- The ancestor walk of the two-component case of
matchesDescendantSelector: Go iterates current = n.Parent upward,
testing element nodes against the single ancestor selector with
matchesSimpleSelector. -/
def ancestorAnySimple (sel : List Char) : List GoNode → Bool
  | [] => false
  | a :: rest =>
    (a.type == GoNodeType.elementNode && matchesSimpleSelector a sel) ||
    ancestorAnySimple sel rest

mutual

/-- Shallow embedding of matchesDescendantSelector
(content_extractor.go): split the selector into whitespace fields, match
the node against the last component, then look for an ancestor matching
the remainder (simple match for two components, recursive descendant
match for more). -/
def matchesDescendantSelector (ancestors : List GoNode) (n : GoNode)
    (selector : List Char) : Bool :=
  let parts := goFields selector
  if h2 : parts.length < 2 then false
  else
    if !(matchesSimpleSelector n parts.getLast!) then false
    else if hq : parts.length = 2 then
      ancestorAnySimple parts.head! ancestors
    else
      ancestorAnyDescendant
        (List.intercalate (" ".toList) (parts.take (parts.length - 1))) ancestors
termination_by ((goFields selector).length, ancestors.length)
decreasing_by
  apply Prod.Lex.left
  have hprops := goFields_members selector
  rw [goFields_intercalate _
    (fun w hw => (hprops w (List.mem_of_mem_take hw)).1)
    (fun w hw => (hprops w (List.mem_of_mem_take hw)).2)]
  show (parts.take (parts.length - 1)).length < parts.length
  simp only [List.length_take]
  omega

/-- The ancestor walk of the multi-component case: Go iterates
current = n.Parent upward, testing element nodes against the joined
remainder selector with matchesDescendantSelector. -/
def ancestorAnyDescendant (sel : List Char) : List GoNode → Bool
  | [] => false
  | a :: rest =>
    (a.type == GoNodeType.elementNode && matchesDescendantSelector rest a sel) ||
    ancestorAnyDescendant sel rest
termination_by anc => ((goFields sel).length, anc.length)
decreasing_by
  · apply Prod.Lex.right
    simp
  · apply Prod.Lex.right
    simp

end

/-- Shallow embedding of matchesSelector (content_extractor.go): the same
branch order as matchesSimpleSelector, with the descendant dispatch
inserted between the class branch and the bare tag fallback. -/
def matchesSelector (ancestors : List GoNode) (n : GoNode)
    (selector0 : List Char) : Bool :=
  let selector := goTrimSpace selector0
  if ("[".toList).isPrefixOf selector && ("]".toList).isSuffixOf selector then
    let attrPart := goTrimCutset ("[]".toList) selector
    if attrPart.contains '=' then
      let attrName := goTrimSpace (attrPart.takeWhile (fun c => c ≠ '='))
      let attrValue := goTrimCutset (Char.ofNat 39 :: '"' :: [])
        (goTrimSpace ((attrPart.dropWhile (fun c => c ≠ '=')).drop 1))
      n.attr.any (fun a => a.key == attrName && a.val == attrValue)
    else
      n.attr.any (fun a => a.key == goTrimSpace attrPart)
  else if ("#".toList).isPrefixOf selector then
    n.attr.any (fun a => a.key == "id".toList && a.val == selector.drop 1)
  else if (".".toList).isPrefixOf selector then
    n.attr.any (fun a => a.key == "class".toList &&
      (goFields a.val).contains (selector.drop 1))
  else if selector.contains ' ' then
    matchesDescendantSelector ancestors n selector
  else
    n.data == selector

mutual

/-- Spec-side reading of the descendant combinator, on the component
list in reversed order (last component first): the node matches the
first (i.e. last) simple component and, when components remain, some
element ancestor matches the remainder, recursively.  This definition
follows the spec's words ("node matches the last component AND has some
ancestor matching the remainder (recursively, supporting A B C
chains)"), to be compared with the source-derived
matchesDescendantSelector. -/
def specRev : List GoNode → GoNode → List (List Char) → Bool
  | _, _, [] => false
  | _, n, [p] => matchesSimpleSelector n p
  | anc, n, p :: q :: rest =>
    matchesSimpleSelector n p && specRevWalk (q :: rest) anc
termination_by anc _ parts => (parts.length, anc.length)
decreasing_by
  apply Prod.Lex.left
  simp

/-- Spec-side ancestor walk: some element ancestor, with its own
ancestor chain, matches the remaining reversed components. -/
def specRevWalk (parts : List (List Char)) : List GoNode → Bool
  | [] => false
  | a :: tail =>
    (a.type == GoNodeType.elementNode && specRev tail a parts) ||
    specRevWalk parts tail
termination_by anc => (parts.length, anc.length)
decreasing_by
  · apply Prod.Lex.right
    simp
  · apply Prod.Lex.right
    simp

end

/-- Spec-side descendant match on a component list in document order. -/
def specDescendantMatch (anc : List GoNode) (n : GoNode)
    (parts : List (List Char)) : Bool :=
  specRev anc n parts.reverse

lemma ancestorAnySimple_eq_specRevWalk (A : List Char) (anc : List GoNode) :
    ancestorAnySimple A anc = specRevWalk [A] anc := by
  induction anc with
  | nil => simp [ancestorAnySimple, specRevWalk]
  | cons a tail ih =>
    simp only [ancestorAnySimple, specRevWalk, specRev, ih]

lemma desc_spec_aux : ∀ (L : Nat) (sel : List Char), (goFields sel).length ≤ L →
    2 ≤ (goFields sel).length → ∀ (anc : List GoNode) (n : GoNode),
    matchesDescendantSelector anc n sel = specRev anc n (goFields sel).reverse := by
  intro L
  induction L with
  | zero =>
    intro sel h hlen
    omega
  | succ L ih =>
    intro sel hle hlen anc n
    rcases hsplit : (goFields sel).reverse with _ | ⟨last, revRest⟩
    · exfalso
      have : (goFields sel).length = 0 := by
        simpa using congrArg List.length hsplit
      omega
    · have hparts : goFields sel = revRest.reverse ++ [last] := by
        have := congrArg List.reverse hsplit
        simpa using this
      have hlast : (goFields sel).getLast! = last := by
        rw [hparts]
        exact List.getLast!_of_getLast? (List.getLast?_concat _)
      have hlen2 : (goFields sel).length = revRest.length + 1 := by
        rw [hparts]; simp
      rcases revRest with _ | ⟨A, revRest'⟩
      · rw [hlen2] at hlen
        simp at hlen
      rcases revRest' with _ | ⟨B, revRest''⟩
      · -- exactly two components, goFields sel = [A, last]
        have hp2 : goFields sel = [A, last] := by simpa using hparts
        unfold matchesDescendantSelector
        rw [hp2]
        simp only [List.length_cons, List.length_nil]
        rw [dif_neg (by omega)]
        have hhead : ([A, last] : List (List Char)).head! = A := rfl
        have hlast2 : ([A, last] : List (List Char)).getLast! = last :=
          List.getLast!_of_getLast? (by simp)
        rw [hlast2, dif_pos trivial, hhead]
        simp only [specRev]
        cases hm : matchesSimpleSelector n last
        · simp
        · simp [ancestorAnySimple_eq_specRevWalk]
      · -- at least three components
        have hlen3 : (goFields sel).length = revRest''.length + 3 := by
          rw [hlen2]; simp
        have hdl : (goFields sel).dropLast = (A :: B :: revRest'').reverse := by
          rw [hparts]
          exact List.dropLast_concat ..
        have htake : (goFields sel).take ((goFields sel).length - 1) =
            (A :: B :: revRest'').reverse := by
          rw [← List.dropLast_eq_take, hdl]
        have hmem : ∀ w ∈ (A :: B :: revRest'').reverse,
            w ≠ [] ∧ ∀ c ∈ w, goIsSpace c = false := by
          intro w hw
          apply goFields_members sel
          rw [hparts]
          exact List.mem_append_left _ hw
        have hfields2 : goFields (List.intercalate (" ".toList)
            (A :: B :: revRest'').reverse) = (A :: B :: revRest'').reverse :=
          goFields_intercalate _ (fun w hw => (hmem w hw).1) (fun w hw => (hmem w hw).2)
        have hwalk : ∀ anc', ancestorAnyDescendant (List.intercalate (" ".toList)
            (A :: B :: revRest'').reverse) anc' = specRevWalk (A :: B :: revRest'') anc' := by
          intro anc'
          induction anc' with
          | nil => simp [ancestorAnyDescendant, specRevWalk]
          | cons a tail ihw =>
            simp only [ancestorAnyDescendant, specRevWalk, ihw]
            have hrec := ih (List.intercalate (" ".toList) (A :: B :: revRest'').reverse)
              (by rw [hfields2]; simp only [List.length_reverse, List.length_cons]; omega)
              (by rw [hfields2]; simp only [List.length_reverse, List.length_cons]; omega)
              tail a
            rw [hrec, hfields2, List.reverse_reverse]
        unfold matchesDescendantSelector
        rw [dif_neg (by omega), hlast]
        rw [dif_neg (by omega : ¬ (goFields sel).length = 2)]
        rw [htake, hwalk anc]
        simp only [specRev]
        cases hm : matchesSimpleSelector n last
        · simp
        · simp

lemma goTrimSpace_id (s : List Char)
    (h1 : ∀ c, s.head? = some c → goIsSpace c = false)
    (h2 : ∀ c, s.getLast? = some c → goIsSpace c = false) :
    goTrimSpace s = s := by
  cases hs : s with
  | nil => rfl
  | cons x xs =>
    have hx : goIsSpace x = false := h1 x (by rw [hs]; rfl)
    have hdrop : (x :: xs).dropWhile goIsSpace = x :: xs := by
      rw [List.dropWhile_cons, hx]
      simp
    unfold goTrimSpace
    rw [hdrop]
    cases hrev : (x :: xs).reverse with
    | nil => simp at hrev
    | cons y ys =>
      have hy : goIsSpace y = false := by
        apply h2
        rw [hs, ← List.head?_reverse, hrev]
        rfl
      have hd2 : List.dropWhile goIsSpace (y :: ys) = y :: ys := by
        rw [List.dropWhile_cons, hy]
        simp
      rw [hd2, ← hrev, List.reverse_reverse]

lemma singleton_isSuffixOf_iff (c : Char) (s : List Char) :
    ([c].isSuffixOf s) = true ↔ s.getLast? = some c := by
  rw [List.isSuffixOf_iff_suffix, List.getLast?_eq_some_iff]
  constructor
  · rintro ⟨l, hl⟩
    exact ⟨l, hl.symm⟩
  · rintro ⟨l, hl⟩
    exact ⟨l, hl.symm⟩

lemma ancestorAnySimple_eq_any (A : List Char) (anc : List GoNode) :
    ancestorAnySimple A anc = anc.any (fun a =>
      a.type == GoNodeType.elementNode && matchesSimpleSelector a A) := by
  induction anc with
  | nil => simp [ancestorAnySimple]
  | cons a tail ih => simp [ancestorAnySimple, ih]

lemma cons_getLast?_ne_none (b0 : Char) (B' : List Char) :
    (b0 :: B').getLast? ≠ none := by
  simp [List.getLast?_eq_none_iff]

lemma matchesSelector_two_component (anc : List GoNode) (n : GoNode)
    (A B : List Char) (hA : A ≠ []) (hB : B ≠ [])
    (hAns : ∀ c ∈ A, goIsSpace c = false) (hBns : ∀ c ∈ B, goIsSpace c = false)
    (hdot : A.head? ≠ some '.') (hhash : A.head? ≠ some '#')
    (hbr : ¬(A.head? = some '[' ∧ B.getLast? = some ']')) :
    matchesSelector anc n (A ++ ' ' :: B) = true ↔
      (matchesSimpleSelector n B = true ∧
       ∃ a ∈ anc, a.type = GoNodeType.elementNode ∧ matchesSimpleSelector a A = true) := by
  rcases A with _ | ⟨a0, A'⟩
  · exact absurd rfl hA
  have hlast : ((a0 :: A') ++ ' ' :: B).getLast? = B.getLast? := by
    rcases B with _ | ⟨b0, B'⟩
    · exact absurd rfl hB
    rw [List.getLast?_append, List.getLast?_cons_cons]
    cases h : (b0 :: B').getLast? with
    | none => exact absurd h (cons_getLast?_ne_none b0 B')
    | some v => simp
  have htrim : goTrimSpace ((a0 :: A') ++ ' ' :: B) = (a0 :: A') ++ ' ' :: B := by
    apply goTrimSpace_id
    · intro c hc
      rw [show ((a0 :: A') ++ ' ' :: B).head? = some a0 from rfl] at hc
      cases hc
      exact hAns a0 (by simp)
    · intro c hc
      rw [hlast] at hc
      exact hBns c (List.mem_of_mem_getLast? hc)
  have hfield : goFields ((a0 :: A') ++ ' ' :: B) = [a0 :: A', B] := by
    have h1 : List.intercalate (" ".toList) [a0 :: A', B] = (a0 :: A') ++ ' ' :: B := by
      simp [List.intercalate, List.intersperse]
    rw [← h1]
    apply goFields_intercalate
    · intro w hw
      simp only [List.mem_cons, List.not_mem_nil, or_false] at hw
      rcases hw with rfl | rfl
      · simp
      · exact hB
    · intro w hw
      simp only [List.mem_cons, List.not_mem_nil, or_false] at hw
      rcases hw with rfl | rfl
      · exact hAns
      · exact hBns
  -- branch conditions
  have hb1 : (("[".toList).isPrefixOf ((a0 :: A') ++ ' ' :: B) &&
      ("]".toList).isSuffixOf ((a0 :: A') ++ ' ' :: B)) = false := by
    by_cases ha : a0 = '['
    · subst ha
      cases hsuf : ("]".toList).isSuffixOf (('[' :: A') ++ ' ' :: B)
      · simp [hsuf]
      · exfalso
        apply hbr
        refine ⟨rfl, ?_⟩
        rw [← hlast]
        exact (singleton_isSuffixOf_iff ']' _).mp hsuf
    · have hne : ('[' == a0) = false :=
        beq_eq_false_iff_ne.mpr (fun h => ha h.symm)
      have hpre : (("[".toList).isPrefixOf ((a0 :: A') ++ ' ' :: B)) = false := by
        simp only [List.cons_append, List.isPrefixOf, hne, Bool.false_and]
      rw [hpre, Bool.false_and]
  have hb2 : (("#".toList).isPrefixOf ((a0 :: A') ++ ' ' :: B)) = false := by
    simp [List.isPrefixOf]
    intro h
    exact hhash (by rw [← h]; rfl)
  have hb3 : ((".".toList).isPrefixOf ((a0 :: A') ++ ' ' :: B)) = false := by
    simp [List.isPrefixOf]
    intro h
    exact hdot (by rw [← h]; rfl)
  have hsp : (((a0 :: A') ++ ' ' :: B).contains ' ') = true := by
    simp
  unfold matchesSelector
  rw [htrim]
  simp only [hb1, hb2, hb3, hsp, Bool.false_eq_true, if_false, if_true]
  rw [desc_spec_aux 2 ((a0 :: A') ++ ' ' :: B) (by rw [hfield]; simp) (by rw [hfield]; simp) anc n]
  rw [hfield]
  simp only [List.reverse_cons, List.reverse_nil, List.nil_append, List.cons_append,
    List.append_nil]
  simp only [specRev]
  rw [← ancestorAnySimple_eq_specRevWalk, ancestorAnySimple_eq_any]
  simp [List.any_eq_true, Bool.and_eq_true, beq_iff_eq]

lemma matchesSelector_class_eq (anc : List GoNode) (n : GoNode) (name : List Char)
    (htrim : goTrimSpace ('.' :: name) = '.' :: name) :
    matchesSelector anc n ('.' :: name) = true ↔
      ∃ a ∈ n.attr, a.key = "class".toList ∧ name ∈ goFields a.val := by
  unfold matchesSelector
  rw [htrim]
  have hbr : (("[".toList).isPrefixOf ('.' :: name) &&
      ("]".toList).isSuffixOf ('.' :: name)) = false := by
    simp [List.isPrefixOf]
  have hhash : (("#".toList).isPrefixOf ('.' :: name)) = false := by
    simp [List.isPrefixOf]
  have hdot : ((".".toList).isPrefixOf ('.' :: name)) = true := by
    simp [List.isPrefixOf]
  simp only [hbr, hhash, hdot, Bool.false_eq_true, if_false, if_true,
    List.drop_one, List.tail_cons]
  simp [List.any_eq_true]

/-! ## Concrete nodes for the selector examples -/

/-- A div element with class wp-block-post-content. -/
def exampleDivWp : GoNode :=
  ⟨GoNodeType.elementNode, "div".toList,
   [⟨"class".toList, "wp-block-post-content".toList⟩]⟩

/-- A div element with class a. -/
def exampleDivClassA : GoNode :=
  ⟨GoNodeType.elementNode, "div".toList, [⟨"class".toList, "a".toList⟩]⟩

/-- A section element without attributes. -/
def exampleSection : GoNode := ⟨GoNodeType.elementNode, "section".toList, []⟩

/-- An article element without attributes. -/
def exampleArticle : GoNode := ⟨GoNodeType.elementNode, "article".toList, []⟩

/-- C7 counterexample: the claim reads matchesSelector(n, "A B") as true
exactly when n matches the simple selector B and some ancestor matches A.
For A = ".a" and B = "section" on a section node whose element ancestor
carries class a, the right-hand side holds, yet matchesSelector returns
false: the selector ".a section" is captured by the class branch (which
strips the dot and looks for the class token "a section") before the
descendant branch is ever reached. -/
theorem matchesSelector_descendant_claim_counterexample :
    matchesSimpleSelector exampleSection ("section".toList) = true ∧
    exampleDivClassA.type = GoNodeType.elementNode ∧
    matchesSimpleSelector exampleDivClassA (".a".toList) = true ∧
    matchesSelector [exampleDivClassA] exampleSection
      ((".a".toList) ++ ' ' :: ("section".toList)) = false :=
  ⟨by decide, by decide, by decide, by decide⟩

/-- C7 (amended): class selectors match exactly the nodes whose class
attribute tokens include the name; and the descendant reading holds for
every selector that actually reaches the descendant branch, i.e. whose
first component does not start with a dot or hash and which does not both
start with an opening and end with a closing bracket (otherwise the
class, id or attribute branch of matchesSelector captures the whole
selector first).  Chains are characterised recursively against the
spec-side predicate specDescendantMatch. -/
theorem matchesSelector_selector_grammar :
    (∀ (anc : List GoNode) (n : GoNode) (name : List Char),
       goTrimSpace ('.' :: name) = '.' :: name →
       (matchesSelector anc n ('.' :: name) = true ↔
         ∃ a ∈ n.attr, a.key = "class".toList ∧ name ∈ goFields a.val)) ∧
    (∀ (anc : List GoNode) (n : GoNode) (A B : List Char),
       A ≠ [] → B ≠ [] →
       (∀ c ∈ A, goIsSpace c = false) → (∀ c ∈ B, goIsSpace c = false) →
       A.head? ≠ some '.' → A.head? ≠ some '#' →
       ¬(A.head? = some '[' ∧ B.getLast? = some ']') →
       (matchesSelector anc n (A ++ ' ' :: B) = true ↔
         (matchesSimpleSelector n B = true ∧
          ∃ a ∈ anc, a.type = GoNodeType.elementNode ∧
            matchesSimpleSelector a A = true))) ∧
    (∀ (sel : List Char) (anc : List GoNode) (n : GoNode),
       2 ≤ (goFields sel).length →
       matchesDescendantSelector anc n sel =
         specDescendantMatch anc n (goFields sel)) := by
  refine ⟨matchesSelector_class_eq, matchesSelector_two_component, ?_⟩
  intro sel anc n hlen
  exact desc_spec_aux (goFields sel).length sel le_rfl hlen anc n

/-- Witness for the amended C7 theorem at concrete inputs. -/
theorem matchesSelector_selector_grammar_witness :
    matchesSelector [] exampleDivWp ('.' :: "wp-block-post-content".toList) = true ∧
    matchesSelector [exampleArticle] exampleSection
      ("article".toList ++ ' ' :: "section".toList) = true ∧
    matchesDescendantSelector [exampleArticle, exampleDivWp] exampleSection
      ("div article section".toList) =
      specDescendantMatch [exampleArticle, exampleDivWp] exampleSection
        (goFields ("div article section".toList)) := by
  refine ⟨?_, ?_, ?_⟩
  · exact (matchesSelector_selector_grammar.1 [] exampleDivWp
      ("wp-block-post-content".toList) (by decide)).mpr
      ⟨⟨"class".toList, "wp-block-post-content".toList⟩, by decide, by decide, by decide⟩
  · exact (matchesSelector_selector_grammar.2.1 [exampleArticle] exampleSection
      ("article".toList) ("section".toList) (by decide) (by decide) (by decide)
      (by decide) (by decide) (by decide) (by decide)).mpr
      ⟨by decide, exampleArticle, by decide, by decide, by decide⟩
  · exact matchesSelector_selector_grammar.2.2 ("div article section".toList)
      [exampleArticle, exampleDivWp] exampleSection (by decide)

/-! ## Date parsing (html_cleaner.go, parseRSSDate / Go time.Parse) -/

/-- Tokens of the Go time reference layouts that parseRSSDate uses.
Each constructor names the reference-layout fragment it stands for. -/
inductive LayoutTok
  | lit (c : Char)
  | dayName
  | dayTwo
  | dayOne
  | monthName
  | monthTwo
  | yearFour
  | hourTwo
  | minuteTwo
  | secondTwo
  | fracNano
  | fracThree
  | zoneISO
  | zoneNum
  | zoneNumColon
  | zoneName
deriving DecidableEq

/-- The wall-clock fields and zone offset produced by a successful Go
time.Parse.  A layout without zone information parses as UTC, which is
offset zero. -/
structure GoParsedTime where
  year : Nat
  month : Nat
  day : Nat
  hour : Nat
  minute : Nat
  second : Nat
  nanos : Nat
  offsetSeconds : Int
deriving DecidableEq

instance : Inhabited GoParsedTime := ⟨⟨0, 1, 1, 0, 0, 0, 0, 0⟩⟩

/-- Decimal digit test. -/
def isDig (c : Char) : Bool := '0' ≤ c && c ≤ '9'

/-- Decimal value of a digit character. -/
def digVal (c : Char) : Nat := c.toNat - 48

/-- Consume exactly two digits (the zero-padded numeric layout tokens). -/
def parseTwoDigits : List Char → Option (Nat × List Char)
  | a :: b :: rest =>
    if isDig a && isDig b then some (10 * digVal a + digVal b, rest) else none
  | _ => none

/-- Consume one or two digits (the unpadded numeric layout tokens, and
Go's hour token "15" which also accepts a single digit). -/
def parseOneOrTwoDigits : List Char → Option (Nat × List Char)
  | a :: b :: rest =>
    if isDig a then
      if isDig b then some (10 * digVal a + digVal b, rest)
      else some (digVal a, b :: rest)
    else none
  | [a] => if isDig a then some (digVal a, []) else none
  | [] => none

/-- Consume exactly four digits (the year token "2006"). -/
def parseFourDigits : List Char → Option (Nat × List Char)
  | a :: b :: c :: d :: rest =>
    if isDig a && isDig b && isDig c && isDig d then
      some (1000 * digVal a + 100 * digVal b + 10 * digVal c + digVal d, rest)
    else none
  | _ => none

/-- The three-letter weekday abbreviations Go accepts for "Mon". -/
def dayAbbrevs : List (List Char) :=
  ["Sun".toList, "Mon".toList, "Tue".toList, "Wed".toList, "Thu".toList,
   "Fri".toList, "Sat".toList]

/-- The three-letter month abbreviations Go accepts for "Jan", in order. -/
def monthAbbrevs : List (List Char) :=
  ["Jan".toList, "Feb".toList, "Mar".toList, "Apr".toList, "May".toList,
   "Jun".toList, "Jul".toList, "Aug".toList, "Sep".toList, "Oct".toList,
   "Nov".toList, "Dec".toList]

/-- Consume a weekday abbreviation (its value is ignored, as in Go). -/
def parseDayName (s : List Char) : Option (List Char) :=
  if dayAbbrevs.any (fun d => d.isPrefixOf s) then some (s.drop 3) else none

/-- Consume a month abbreviation and return the month number. -/
def parseMonthName (s : List Char) : Option (Nat × List Char) :=
  match monthAbbrevs.findIdx? (fun d => d.isPrefixOf s) with
  | some i => some (i + 1, s.drop 3)
  | none => none

/-- Consume a sign and return it as an Int factor. -/
def parseSign : List Char → Option (Int × List Char)
  | '+' :: rest => some (1, rest)
  | '-' :: rest => some (-1, rest)
  | _ => none

/-- Zone offset of the form hhmm after a sign ("-0700"). -/
def parseZoneNum (s : List Char) : Option (Int × List Char) :=
  (parseSign s).bind fun (sgn, s1) =>
  (parseTwoDigits s1).bind fun (hh, s2) =>
  (parseTwoDigits s2).map fun (mm, s3) =>
  (sgn * (hh * 3600 + mm * 60), s3)

/-- Zone offset of the form hh:mm after a sign ("-07:00"). -/
def parseZoneNumColon (s : List Char) : Option (Int × List Char) :=
  (parseSign s).bind fun (sgn, s1) =>
  (parseTwoDigits s1).bind fun (hh, s2) =>
  match s2 with
  | ':' :: s3 =>
    (parseTwoDigits s3).map fun (mm, s4) => (sgn * (hh * 3600 + mm * 60), s4)
  | _ => none

/-- Zone of the ISO form "Z07:00": a literal Z meaning UTC, or a signed
hh:mm offset. -/
def parseZoneISO : List Char → Option (Int × List Char)
  | 'Z' :: rest => some (0, rest)
  | s => parseZoneNumColon s

/-- A named zone abbreviation ("MST"): Go accepts a run of at least
three upper-case letters and, with no location attached, gives an
unknown abbreviation offset zero. -/
def parseZoneName (s : List Char) : Option (Int × List Char) :=
  let letters := s.takeWhile (fun c => 'A' ≤ c && c ≤ 'Z')
  if 3 ≤ letters.length then some (0, s.drop letters.length) else none

/-- Fractional seconds ".999999999": optional; when present, a dot
followed by one or more digits, scaled to nanoseconds. -/
def parseFracNano (s : List Char) : Option (Nat × List Char) :=
  match s with
  | '.' :: rest =>
    let digits := rest.takeWhile isDig
    if digits.length = 0 then none
    else
      let v := digits.foldl (fun acc c => 10 * acc + digVal c) 0
      some (v * 10 ^ (9 - digits.length), rest.drop digits.length)
  | _ => some (0, s)

/-- Fractional seconds ".000": a dot followed by exactly three digits. -/
def parseFracThree (s : List Char) : Option (Nat × List Char) :=
  match s with
  | '.' :: a :: b :: c :: rest =>
    if isDig a && isDig b && isDig c then
      some ((100 * digVal a + 10 * digVal b + digVal c) * 1000000, rest)
    else none
  | _ => none

/-- Run one layout token against the input, updating the parsed fields. -/
def runTok (tok : LayoutTok) (t : GoParsedTime) (s : List Char) :
    Option (GoParsedTime × List Char) :=
  match tok with
  | .lit c => match s with
    | c' :: rest => if c' = c then some (t, rest) else none
    | [] => none
  | .dayName => (parseDayName s).map fun rest => (t, rest)
  | .dayTwo => (parseTwoDigits s).map fun (v, rest) => ({t with day := v}, rest)
  | .dayOne => (parseOneOrTwoDigits s).map fun (v, rest) => ({t with day := v}, rest)
  | .monthName => (parseMonthName s).map fun (v, rest) => ({t with month := v}, rest)
  | .monthTwo => (parseTwoDigits s).map fun (v, rest) => ({t with month := v}, rest)
  | .yearFour => (parseFourDigits s).map fun (v, rest) => ({t with year := v}, rest)
  | .hourTwo => (parseOneOrTwoDigits s).map fun (v, rest) => ({t with hour := v}, rest)
  | .minuteTwo => (parseTwoDigits s).map fun (v, rest) => ({t with minute := v}, rest)
  | .secondTwo => (parseTwoDigits s).map fun (v, rest) => ({t with second := v}, rest)
  | .fracNano => (parseFracNano s).map fun (v, rest) => ({t with nanos := v}, rest)
  | .fracThree => (parseFracThree s).map fun (v, rest) => ({t with nanos := v}, rest)
  | .zoneISO => (parseZoneISO s).map fun (v, rest) => ({t with offsetSeconds := v}, rest)
  | .zoneNum => (parseZoneNum s).map fun (v, rest) => ({t with offsetSeconds := v}, rest)
  | .zoneNumColon =>
    (parseZoneNumColon s).map fun (v, rest) => ({t with offsetSeconds := v}, rest)
  | .zoneName => (parseZoneName s).map fun (v, rest) => ({t with offsetSeconds := v}, rest)

/-- Run a whole layout; Go errors when layout or input has trailing
text, so success requires the input to be consumed exactly. -/
def runLayout : List LayoutTok → GoParsedTime → List Char → Option GoParsedTime
  | [], t, [] => some t
  | [], _, _ :: _ => none
  | tok :: rest, t, s => (runTok tok t s).bind fun p => runLayout rest p.1 p.2

/-- Leap-year rule of the proleptic Gregorian calendar, as in Go. -/
def isLeapYear (y : Nat) : Bool :=
  (y % 4 = 0 && y % 100 ≠ 0) || y % 400 = 0

/-- Days in a month. -/
def daysInMonth (y m : Nat) : Nat :=
  if m = 2 then (if isLeapYear y then 29 else 28)
  else if m = 4 || m = 6 || m = 9 || m = 11 then 30
  else 31

/-- The range validation Go applies after matching the layout. -/
def validDateTime (t : GoParsedTime) : Bool :=
  1 ≤ t.month && t.month ≤ 12 && 1 ≤ t.day && t.day ≤ daysInMonth t.year t.month &&
  t.hour ≤ 23 && t.minute ≤ 59 && t.second ≤ 59

/-- Model of Go time.Parse for one reference layout. -/
def goTimeParse (layout : List LayoutTok) (s : List Char) : Option GoParsedTime :=
  (runLayout layout default s).bind fun t =>
    if validDateTime t then some t else none

/-- Layout "2006-01-02T15:04:05Z07:00" (time.RFC3339). -/
def fmtRFC3339 : List LayoutTok :=
  [.yearFour, .lit '-', .monthTwo, .lit '-', .dayTwo, .lit 'T',
   .hourTwo, .lit ':', .minuteTwo, .lit ':', .secondTwo, .zoneISO]

/-- Layout "2006-01-02T15:04:05.999999999Z07:00" (time.RFC3339Nano). -/
def fmtRFC3339Nano : List LayoutTok :=
  [.yearFour, .lit '-', .monthTwo, .lit '-', .dayTwo, .lit 'T',
   .hourTwo, .lit ':', .minuteTwo, .lit ':', .secondTwo, .fracNano, .zoneISO]

/-- Layout "Mon, 02 Jan 2006 15:04:05 -0700" (time.RFC1123Z). -/
def fmtRFC1123Z : List LayoutTok :=
  [.dayName, .lit ',', .lit ' ', .dayTwo, .lit ' ', .monthName, .lit ' ',
   .yearFour, .lit ' ', .hourTwo, .lit ':', .minuteTwo, .lit ':', .secondTwo,
   .lit ' ', .zoneNum]

/-- Layout "Mon, 02 Jan 2006 15:04:05 MST" (time.RFC1123). -/
def fmtRFC1123 : List LayoutTok :=
  [.dayName, .lit ',', .lit ' ', .dayTwo, .lit ' ', .monthName, .lit ' ',
   .yearFour, .lit ' ', .hourTwo, .lit ':', .minuteTwo, .lit ':', .secondTwo,
   .lit ' ', .zoneName]

/-- Layout "2006-01-02T15:04:05-07:00". -/
def fmtISOColonZone : List LayoutTok :=
  [.yearFour, .lit '-', .monthTwo, .lit '-', .dayTwo, .lit 'T',
   .hourTwo, .lit ':', .minuteTwo, .lit ':', .secondTwo, .zoneNumColon]

/-- Layout "2006-01-02T15:04:05.000Z" (a fixed three-digit fraction
followed by a literal Z, which is not a zone token in this layout). -/
def fmtISOMilliZ : List LayoutTok :=
  [.yearFour, .lit '-', .monthTwo, .lit '-', .dayTwo, .lit 'T',
   .hourTwo, .lit ':', .minuteTwo, .lit ':', .secondTwo, .fracThree, .lit 'Z']

/-- Layout "2006-01-02 15:04:05 -0700". -/
def fmtSpaceZone : List LayoutTok :=
  [.yearFour, .lit '-', .monthTwo, .lit '-', .dayTwo, .lit ' ',
   .hourTwo, .lit ':', .minuteTwo, .lit ':', .secondTwo, .lit ' ', .zoneNum]

/-- Layout "2006-01-02 15:04:05". -/
def fmtSpacePlain : List LayoutTok :=
  [.yearFour, .lit '-', .monthTwo, .lit '-', .dayTwo, .lit ' ',
   .hourTwo, .lit ':', .minuteTwo, .lit ':', .secondTwo]

/-- Layout "Mon, 2 Jan 2006 15:04:05 -0700". -/
def fmtRFC1123ZLoose : List LayoutTok :=
  [.dayName, .lit ',', .lit ' ', .dayOne, .lit ' ', .monthName, .lit ' ',
   .yearFour, .lit ' ', .hourTwo, .lit ':', .minuteTwo, .lit ':', .secondTwo,
   .lit ' ', .zoneNum]

/-- Layout "Mon, 2 Jan 2006 15:04:05 MST". -/
def fmtRFC1123Loose : List LayoutTok :=
  [.dayName, .lit ',', .lit ' ', .dayOne, .lit ' ', .monthName, .lit ' ',
   .yearFour, .lit ' ', .hourTwo, .lit ':', .minuteTwo, .lit ':', .secondTwo,
   .lit ' ', .zoneName]

/-- The ordered candidate format list of parseRSSDate
(html_cleaner.go lines 530-541). -/
def rssDateFormats : List (List LayoutTok) :=
  [fmtRFC3339, fmtRFC3339Nano, fmtRFC1123Z, fmtRFC1123, fmtISOColonZone,
   fmtISOMilliZ, fmtSpaceZone, fmtSpacePlain, fmtRFC1123ZLoose, fmtRFC1123Loose]

/-- Shallow embedding of parseRSSDate (html_cleaner.go): try each
candidate format in order, the first that parses wins. -/
def parseRSSDate (s : List Char) : Option GoParsedTime :=
  rssDateFormats.findSome? fun fmt => goTimeParse fmt s

/-- Days since 1970-01-01 of a proleptic Gregorian date (civil-days
conversion; all intermediate quantities are non-negative for the years
parseRSSDate produces). -/
def daysFromCivil (y m d : Nat) : Int :=
  let yAdj : Int := if m ≤ 2 then (y : Int) - 1 else (y : Int)
  let era : Int := yAdj / 400
  let yoe : Int := yAdj - era * 400
  let mp : Int := if 2 < m then (m : Int) - 3 else (m : Int) + 9
  let doy : Int := (153 * mp + 2) / 5 + (d : Int) - 1
  let doe : Int := yoe * 365 + yoe / 4 - yoe / 100 + doy
  era * 146097 + doe - 719468

/-- The UTC instant denoted by a parsed time, as Unix seconds paired
with the nanosecond part. -/
def toUTCInstant (t : GoParsedTime) : Int × Nat :=
  (daysFromCivil t.year t.month t.day * 86400 +
     t.hour * 3600 + t.minute * 60 + t.second - t.offsetSeconds, t.nanos)

/-- The three literal example dates of the date-parsing property. -/
def dateRFC1123Z : List Char := "Mon, 02 Jan 2006 15:04:05 -0700".toList

/-- The RFC 3339 example date. -/
def dateRFC3339 : List Char := "2006-01-02T15:04:05Z".toList

/-- The loose space-separated example date. -/
def dateLoose : List Char := "2006-01-02 15:04:05".toList

/-- C2 counterexample: all three example dates parse, but the first,
which carries a -0700 zone offset, denotes a UTC instant seven hours
after the instant of the second, so the three parsed results do not
denote the same instant in UTC. -/
theorem parseRSSDate_same_instant_counterexample :
    (parseRSSDate dateRFC1123Z).isSome = true ∧
    (parseRSSDate dateRFC3339).isSome = true ∧
    (parseRSSDate dateLoose).isSome = true ∧
    (parseRSSDate dateRFC1123Z).map toUTCInstant ≠
      (parseRSSDate dateRFC3339).map toUTCInstant := by decide

/-- C2 (amended): each example date is parsed by the first candidate
format that matches it (RFC 1123 with numeric zone for the first, RFC
3339 for the second, the bare "2006-01-02 15:04:05" layout for the
third); the second and third denote the same UTC instant,
2006-01-02 15:04:05 UTC, while the first denotes an instant 25200
seconds (seven hours) later, because its wall-clock time carries a
-0700 offset. -/
theorem parseRSSDate_example_dates :
    parseRSSDate dateRFC1123Z = goTimeParse fmtRFC1123Z dateRFC1123Z ∧
    parseRSSDate dateRFC3339 = goTimeParse fmtRFC3339 dateRFC3339 ∧
    parseRSSDate dateLoose = goTimeParse fmtSpacePlain dateLoose ∧
    (parseRSSDate dateRFC3339).map toUTCInstant = some (1136214245, 0) ∧
    (parseRSSDate dateLoose).map toUTCInstant = some (1136214245, 0) ∧
    (parseRSSDate dateRFC1123Z).map toUTCInstant =
      some (1136214245 + 25200, 0) := by decide

/-! ## cleanString and ConvertToInspirationPosts (html_cleaner.go) -/

/-- Worker for goReplaceAll: greedy left-to-right non-overlapping
replacement for a non-empty pattern; after a match the remaining pattern
length is skipped via the skip argument, keeping the recursion
structural. -/
def goReplaceAux (pat rep : List Char) : List Char → Nat → List Char
  | [], _ => []
  | _ :: rest, skip + 1 => goReplaceAux pat rep rest skip
  | c :: rest, 0 =>
    if pat.isPrefixOf (c :: rest) then rep ++ goReplaceAux pat rep rest (pat.length - 1)
    else c :: goReplaceAux pat rep rest 0

/-- Go strings.ReplaceAll for the non-empty patterns the crawler uses. -/
def goReplaceAll (pat rep s : List Char) : List Char :=
  match pat with
  | [] => s
  | p :: ps => goReplaceAux (p :: ps) rep s 0

/-- The tag-removal loop of cleanString (html_cleaner.go): while the
string contains both an opening and a closing angle bracket, find the
first opening bracket, the first closing bracket after it, and cut that
span out; stop when no closing bracket follows the first opening one. -/
def stripTags (s : List Char) : List Char :=
  if s.contains '<' && s.contains '>' then
    let start := s.findIdx (fun c => c = '<')
    match hend : (s.drop start).findIdx? (fun c => c = '>') with
    | none => s
    | some e => stripTags (s.take start ++ s.drop (start + e + 1))
  else s
termination_by s.length
decreasing_by
  rw [List.findIdx?_eq_some_iff_findIdx_eq] at hend
  have he : e < s.length - start := by
    have := hend.1
    simpa using this
  simp only [List.length_append, List.length_take, List.length_drop]
  omega

/-- Shallow embedding of cleanString (html_cleaner.go): trim, turn br
tags into newlines, strip remaining tags, normalise line breaks, trim
again. -/
def cleanString (s0 : List Char) : List Char :=
  let s1 := goTrimSpace s0
  let s2 := goReplaceAll ("<br>".toList) ("\n".toList) s1
  let s3 := goReplaceAll ("<br/>".toList) ("\n".toList) s2
  let s4 := goReplaceAll ("<br />".toList) ("\n".toList) s3
  let s5 := stripTags s4
  let s6 := goReplaceAll ("\n\n\n".toList) ("\n\n".toList) s5
  let s7 := goReplaceAll ("\r\n".toList) ("\n".toList) s6
  let s8 := goReplaceAll ("\r".toList) ("\n".toList) s7
  goTrimSpace s8

/-- Go strings.HasPrefix(strings.ToLower(mimeType), "image/"), the
isImageType helper of html_cleaner.go. -/
def isImageType (mimeType : List Char) : Bool :=
  ("image/".toList).isPrefixOf (goToLower mimeType)

/-- Two-digit zero-padded decimal rendering. -/
def padTwo (n : Nat) : List Char :=
  if n < 10 then '0' :: (Nat.toDigits 10 n) else Nat.toDigits 10 n

/-- Four-digit zero-padded decimal rendering (years here are always
four digits). -/
def padFour (n : Nat) : List Char :=
  if n < 10 then '0' :: '0' :: '0' :: Nat.toDigits 10 n
  else if n < 100 then '0' :: '0' :: Nat.toDigits 10 n
  else if n < 1000 then '0' :: Nat.toDigits 10 n
  else Nat.toDigits 10 n

/-- Go t.Format(time.RFC3339) for a parsed time with whole seconds: the
date and clock fields followed by Z for UTC or a signed hh:mm offset. -/
def formatRFC3339 (t : GoParsedTime) : List Char :=
  padFour t.year ++ '-' :: padTwo t.month ++ '-' :: padTwo t.day ++
  'T' :: padTwo t.hour ++ ':' :: padTwo t.minute ++ ':' :: padTwo t.second ++
  (if t.offsetSeconds = 0 then ['Z']
   else
     let sgn := if t.offsetSeconds < 0 then '-' else '+'
     let a := t.offsetSeconds.natAbs
     sgn :: padTwo (a / 3600) ++ ':' :: padTwo (a % 3600 / 60))

/-- RSS media descriptors carrying only the fields the converter
reads. -/
structure GoMediaContent where
  url : List Char
deriving DecidableEq

/-- An RSS enclosure: URL plus MIME type. -/
structure GoEnclosure where
  url : List Char
  type : List Char
deriving DecidableEq

/-- An RSS item (models.RSSItem) with the fields
ConvertToInspirationPosts reads. -/
structure RSSItem where
  title : List Char
  description : List Char
  content : List Char
  link : List Char
  author : List Char
  pubDate : List Char
  guid : List Char
  enclosure : Option GoEnclosure
  mediaThumbnail : Option GoMediaContent
  mediaContent : Option GoMediaContent
deriving DecidableEq

/-- models.CreateInspirationFeedPostRequest. -/
structure CreatePostRequest where
  inspirationFeedID : List Char
  title : List Char
  description : Option (List Char)
  content : Option (List Char)
  url : List Char
  author : Option (List Char)
  publishedAt : Option (List Char)
  guid : Option (List Char)
  imageURL : Option (List Char)
  fullContent : Option (List Char)
  isPrimaryReporting : Option Bool
  originalSourceName : Option (List Char)
deriving DecidableEq

/-- The extractor output (ExtractedContent) consumed by the converter. -/
structure GoExtractedContent where
  imageURL : List Char
  fullContent : List Char
deriving DecidableEq

/-- Build the post of one RSS item, as the loop body of
ConvertToInspirationPosts does.  The extractOracle parameter abstracts
contentExtractor.ExtractContentFromURL: none models the error case. -/
def buildPost (extractOracle : List Char → Option GoExtractedContent)
    (feedID : List Char) (item : RSSItem) : CreatePostRequest :=
  let title := cleanString item.title
  let url := cleanString item.link
  let description :=
    if item.description ≠ [] then some (cleanString item.description) else none
  let content :=
    if item.content ≠ [] then some (cleanString item.content) else none
  let author :=
    if item.author ≠ [] then some (cleanString item.author) else none
  let publishedAt :=
    if item.pubDate ≠ [] then (parseRSSDate item.pubDate).map formatRFC3339 else none
  let guid :=
    if item.guid ≠ [] then some (cleanString item.guid)
    else some (cleanString item.link)
  let extracted := if url ≠ [] then extractOracle url else none
  let imageFromWeb :=
    match extracted with
    | some ex => if ex.imageURL ≠ [] then some ex.imageURL else none
    | none => none
  let fullContent :=
    match extracted with
    | some ex => if ex.fullContent ≠ [] then some ex.fullContent else none
    | none => none
  let imageURL :=
    match imageFromWeb with
    | some u => some u
    | none =>
      match item.mediaThumbnail with
      | some m => if m.url ≠ [] then some (cleanString m.url) else fallbackA item
      | none => fallbackA item
  ⟨feedID, title, description, content, url, author, publishedAt, guid,
   imageURL, fullContent, none, none⟩
where
  /-- The media-content and enclosure image fallbacks. -/
  fallbackA (item : RSSItem) : Option (List Char) :=
    match item.mediaContent with
    | some m => if m.url ≠ [] then some (cleanString m.url) else fallbackB item
    | none => fallbackB item
  /-- The type-checked enclosure fallback. -/
  fallbackB (item : RSSItem) : Option (List Char) :=
    match item.enclosure with
    | some e => if e.url ≠ [] && isImageType e.type then some (cleanString e.url) else none
    | none => none

/-- Shallow embedding of ConvertToInspirationPosts (html_cleaner.go):
build a post per item and keep only those with non-empty title and
URL. -/
def convertToInspirationPosts (extractOracle : List Char → Option GoExtractedContent)
    (feedID : List Char) : List RSSItem → List CreatePostRequest
  | [] => []
  | item :: rest =>
    let post := buildPost extractOracle feedID item
    if post.title ≠ [] && post.url ≠ [] then
      post :: convertToInspirationPosts extractOracle feedID rest
    else
      convertToInspirationPosts extractOracle feedID rest

lemma buildPost_title (o : List Char → Option GoExtractedContent) (f : List Char)
    (item : RSSItem) : (buildPost o f item).title = cleanString item.title := rfl

lemma buildPost_url (o : List Char → Option GoExtractedContent) (f : List Char)
    (item : RSSItem) : (buildPost o f item).url = cleanString item.link := rfl

lemma buildPost_guid (o : List Char → Option GoExtractedContent) (f : List Char)
    (item : RSSItem) : (buildPost o f item).guid =
      (if item.guid ≠ [] then some (cleanString item.guid)
       else some (cleanString item.link)) := rfl

lemma convert_invariants (o : List Char → Option GoExtractedContent)
    (feedID : List Char) (items : List RSSItem) :
    (convertToInspirationPosts o feedID items).length =
      (items.filter (fun it =>
        cleanString it.title ≠ [] && cleanString it.link ≠ [])).length ∧
    ∀ p ∈ convertToInspirationPosts o feedID items,
      p.title ≠ [] ∧ p.url ≠ [] ∧ p.guid ≠ none ∧
      ∃ item ∈ items, p.title = cleanString item.title ∧
        p.url = cleanString item.link ∧
        p.guid = (if item.guid ≠ [] then some (cleanString item.guid)
                  else some (cleanString item.link)) := by
  induction items with
  | nil => exact ⟨rfl, by simp [convertToInspirationPosts]⟩
  | cons item rest ih =>
    obtain ⟨ihlen, ihmem⟩ := ih
    have hcond : ((buildPost o feedID item).title ≠ [] &&
        (buildPost o feedID item).url ≠ []) =
        (cleanString item.title ≠ [] && cleanString item.link ≠ []) := by
      rw [buildPost_title, buildPost_url]
    constructor
    · simp only [convertToInspirationPosts, List.filter_cons, hcond]
      rcases Bool.eq_false_or_eq_true
          (decide (cleanString item.title ≠ []) && decide (cleanString item.link ≠ []))
        with hc | hc
      · rw [hc]
        simp only [if_true, List.length_cons]
        rw [ihlen]
      · rw [hc]
        simp only [Bool.false_eq_true, if_false]
        exact ihlen
    · intro p hp
      simp only [convertToInspirationPosts] at hp
      rcases Bool.eq_false_or_eq_true ((buildPost o feedID item).title ≠ [] &&
          (buildPost o feedID item).url ≠ []) with hb | hb
      · rw [hb] at hp
        simp only [if_true] at hp
        rcases List.mem_cons.mp hp with rfl | hmem
        · simp only [Bool.and_eq_true, ne_eq, decide_eq_true_eq] at hb
          refine ⟨by simpa using hb.1, by simpa using hb.2, ?_,
            item, by simp, buildPost_title .., buildPost_url .., buildPost_guid ..⟩
          rw [buildPost_guid]
          split <;> simp
        · obtain ⟨h1, h2, h3, it, hit, h4⟩ := ihmem p hmem
          exact ⟨h1, h2, h3, it, by simp [hit], h4⟩
      · rw [hb] at hp
        simp only [Bool.false_eq_true, if_false] at hp
        obtain ⟨h1, h2, h3, it, hit, h4⟩ := ihmem p hp
        exact ⟨h1, h2, h3, it, by simp [hit], h4⟩

lemma goReplaceAux_no_head (p : Char) (ps rep : List Char) :
    ∀ s, (∀ c ∈ s, c ≠ p) → goReplaceAux (p :: ps) rep s 0 = s := by
  intro s
  induction s with
  | nil => intro _; rfl
  | cons c rest ih =>
    intro h
    have hcp : ((p == c) : Bool) = false :=
      beq_eq_false_iff_ne.mpr (fun hh => (h c (by simp)) hh.symm)
    simp only [goReplaceAux, List.isPrefixOf, hcp, Bool.false_and, Bool.false_eq_true,
      if_false]
    rw [ih (fun d hd => h d (by simp [hd]))]

lemma stripTags_no_tag (s : List Char) (h : s.contains '<' = false) :
    stripTags s = s := by
  unfold stripTags
  rw [h]
  simp

lemma contains_eq_false_of_not_mem {s : List Char} {p : Char} (h : ¬ p ∈ s) :
    s.contains p = false := by
  simpa using h

lemma cleanString_of_no_tags (s : List Char)
    (h : ¬ '<' ∈ goTrimSpace s) :
    cleanString s =
      goTrimSpace (goReplaceAll ("\r".toList) ("\n".toList)
        (goReplaceAll ("\r\n".toList) ("\n".toList)
          (goReplaceAll ("\n\n\n".toList) ("\n\n".toList) (goTrimSpace s)))) := by
  have hne : ∀ c ∈ goTrimSpace s, c ≠ '<' := fun c hc he => h (he ▸ hc)
  show goTrimSpace (goReplaceAll ("\r".toList) ("\n".toList)
        (goReplaceAll ("\r\n".toList) ("\n".toList)
          (goReplaceAll ("\n\n\n".toList) ("\n\n".toList)
            (stripTags
              (goReplaceAll ("<br />".toList) ("\n".toList)
                (goReplaceAll ("<br/>".toList) ("\n".toList)
                  (goReplaceAll ("<br>".toList) ("\n".toList) (goTrimSpace s)))))))) = _
  rw [show goReplaceAll ("<br>".toList) ("\n".toList) (goTrimSpace s) = goTrimSpace s from
    goReplaceAux_no_head '<' _ _ _ hne]
  rw [show goReplaceAll ("<br/>".toList) ("\n".toList) (goTrimSpace s) = goTrimSpace s from
    goReplaceAux_no_head '<' _ _ _ hne]
  rw [show goReplaceAll ("<br />".toList) ("\n".toList) (goTrimSpace s) = goTrimSpace s from
    goReplaceAux_no_head '<' _ _ _ hne]
  rw [stripTags_no_tag _ (contains_eq_false_of_not_mem h)]

/-- An RSS item with a usable title and link and no GUID. -/
def witnessGoodItem : RSSItem :=
  ⟨"Hello".toList, [], [], "https://example.com/a".toList, [], [], [],
   none, none, none⟩

/-- An RSS item whose title is empty, so the converter omits it. -/
def witnessBadItem : RSSItem :=
  ⟨[], [], [], "https://example.com/b".toList, [], [], [], none, none, none⟩

/-- C10: every post returned by ConvertToInspirationPosts has a
non-empty cleaned title, a non-empty cleaned URL and a non-nil GUID
(the item's cleaned GUID, or its cleaned link when the GUID is absent);
items whose cleaned title or cleaned link is empty are omitted, so the
output is exactly the well-titled well-linked sublist and can be
shorter than the input item list. -/
theorem convertToInspirationPosts_spec :
    ∀ (extractOracle : List Char → Option GoExtractedContent)
      (feedID : List Char) (items : List RSSItem),
      ((convertToInspirationPosts extractOracle feedID items).length =
        (items.filter (fun it =>
          cleanString it.title ≠ [] && cleanString it.link ≠ [])).length) ∧
      (convertToInspirationPosts extractOracle feedID items).length ≤ items.length ∧
      ∀ p ∈ convertToInspirationPosts extractOracle feedID items,
        p.title ≠ [] ∧ p.url ≠ [] ∧ p.guid ≠ none ∧
        ∃ item ∈ items, p.title = cleanString item.title ∧
          p.url = cleanString item.link ∧
          p.guid = (if item.guid ≠ [] then some (cleanString item.guid)
                    else some (cleanString item.link)) := by
  intro o feedID items
  obtain ⟨h1, h2⟩ := convert_invariants o feedID items
  exact ⟨h1, by rw [h1]; exact List.length_filter_le .., h2⟩

/-- Witness for C10: on a two-item list whose second item has an empty
title, the converter returns exactly one post. -/
theorem convertToInspirationPosts_spec_witness :
    (convertToInspirationPosts (fun _ => none) ("feed".toList)
      [witnessGoodItem, witnessBadItem]).length = 1 ∧
    (convertToInspirationPosts (fun _ => none) ("feed".toList)
      [witnessGoodItem, witnessBadItem]).length ≤ 2 := by
  have h := convertToInspirationPosts_spec (fun _ => none) ("feed".toList)
    [witnessGoodItem, witnessBadItem]
  have e1 : cleanString ("Hello".toList) = "Hello".toList := by
    rw [cleanString_of_no_tags _ (by decide)]
    decide
  have e2 : cleanString ("https://example.com/a".toList) =
      "https://example.com/a".toList := by
    rw [cleanString_of_no_tags _ (by decide)]
    decide
  have e3 : cleanString ([] : List Char) = [] := by
    rw [cleanString_of_no_tags _ (by decide)]
    decide
  constructor
  · rw [h.1]
    simp only [List.filter_cons, List.filter_nil, witnessGoodItem, witnessBadItem, e1, e2, e3]
    simp
  · exact h.2.1

/-! ## Crawl orchestration (service.go, crawlSingleFeed) -/

/-- models.InspirationFeed, with the fields the crawler reads. -/
structure InspirationFeed where
  id : List Char
  name : List Char
  url : List Char
  isActive : Bool
  lastCrawledAt : Option (List Char)
  crawlIntervalMinutes : Nat
deriving DecidableEq

/-- models.InspirationFeedPost as consumed by crawlSingleFeed, which
reads only the GUID of each existing post. -/
structure InspirationFeedPost where
  guid : Option (List Char)
deriving DecidableEq

/-- models.CrawlResult; the Error field is modelled by the errored
flag since only its presence is ever branched on. -/
structure CrawlResult where
  feedID : List Char
  success : Bool
  errored : Bool
  postsFound : Nat
  postsAdded : Nat
  postsSkipped : Nat
deriving DecidableEq

/-- models.ContentAnalysisResponse, restricted to the two fields the
crawl loop copies onto the post (confidence and reasoning are only
logged). -/
structure ContentAnalysisResponse where
  isPrimaryReporting : Bool
  originalSourceName : Option (List Char)
deriving DecidableEq

/-- Outcome of one llmClient.AnalyzeContent call as seen by
crawlSingleFeed: a response, or an error. -/
inductive AnalysisOutcome
  | ok (resp : ContentAnalysisResponse)
  | failed
deriving DecidableEq

/-- The collaborators of one crawlSingleFeed run, as oracles: the feed
fetch-and-parse result, the web content extractor, the CMS call
fetching up to 100 existing posts, the classifier, and whether each
CreateInspirationFeedPost call succeeds. -/
structure CrawlEnv where
  parseFeed : Except Unit (List RSSItem)
  extractOracle : List Char → Option GoExtractedContent
  existingPosts : Except Unit (List InspirationFeedPost)
  analyze : CreatePostRequest → AnalysisOutcome
  createOk : CreatePostRequest → Bool
  enableContentAnalysis : Bool
  llmClientPresent : Bool

/-- The classifier step of the candidate loop (service.go lines
217-275): when analysis is enabled and a client exists, an error
yields the conservative non-primary default and a success applies the
verdict; otherwise the disabled default assumes primary reporting. -/
def applyAnalysis (env : CrawlEnv) (post : CreatePostRequest) : CreatePostRequest :=
  if env.enableContentAnalysis && env.llmClientPresent then
    match env.analyze post with
    | .failed =>
      {post with isPrimaryReporting := some false, originalSourceName := none}
    | .ok a =>
      {post with isPrimaryReporting := some a.isPrimaryReporting,
                 originalSourceName := a.originalSourceName}
  else
    {post with isPrimaryReporting := some true, originalSourceName := none}

/-- The duplicate test of the candidate loop: the post has a GUID and
it is a member of the existing-GUID set. -/
def isDuplicate (existingGUIDs : List (List Char)) (post : CreatePostRequest) : Bool :=
  match post.guid with
  | some g => existingGUIDs.contains g
  | none => false

/-- The candidate loop of crawlSingleFeed: returns (postsAdded,
postsSkipped, posts handed to CreateInspirationFeedPost in document
order).  A duplicate is skipped without submission; a non-duplicate is
analysed and submitted, counting as added on creation success and as
skipped on creation failure. -/
def processPosts (env : CrawlEnv) (existingGUIDs : List (List Char)) :
    List CreatePostRequest → Nat × Nat × List CreatePostRequest
  | [] => (0, 0, [])
  | post :: rest =>
    if isDuplicate existingGUIDs post then
      let r := processPosts env existingGUIDs rest
      (r.1, r.2.1 + 1, r.2.2)
    else
      let post' := applyAnalysis env post
      let r := processPosts env existingGUIDs rest
      if env.createOk post' then (r.1 + 1, r.2.1, post' :: r.2.2)
      else (r.1, r.2.1 + 1, post' :: r.2.2)

/-- Shallow embedding of crawlSingleFeed (service.go): parse the feed,
succeed early on zero items, convert items to candidate posts, build
the GUID set from the existing posts (an errored fetch degrades to the
empty list), run the candidate loop, and report counts.  The second
component is the list of posts submitted to the CMS. -/
def crawlSingleFeed (env : CrawlEnv) (feed : InspirationFeed) :
    CrawlResult × List CreatePostRequest :=
  match env.parseFeed with
  | .error _ => (⟨feed.id, false, true, 0, 0, 0⟩, [])
  | .ok items =>
    if items.length = 0 then (⟨feed.id, true, false, 0, 0, 0⟩, [])
    else
      let posts := convertToInspirationPosts env.extractOracle feed.id items
      let existing := match env.existingPosts with
        | .ok l => l
        | .error _ => []
      let existingGUIDs := existing.filterMap (fun p => p.guid)
      let r := processPosts env existingGUIDs posts
      (⟨feed.id, true, false, items.length, r.1, r.2.1⟩, r.2.2)

lemma applyAnalysis_guid (env : CrawlEnv) (post : CreatePostRequest) :
    (applyAnalysis env post).guid = post.guid := by
  unfold applyAnalysis
  split
  · split <;> rfl
  · rfl

lemma processPosts_spec (env : CrawlEnv) (egs : List (List Char)) :
    ∀ posts : List CreatePostRequest,
      (processPosts env egs posts).2.2 =
        (posts.filter (fun p => !(isDuplicate egs p))).map (applyAnalysis env) ∧
      (processPosts env egs posts).1 + (processPosts env egs posts).2.1 =
        posts.length ∧
      (processPosts env egs posts).2.1 =
        posts.countP (fun p => isDuplicate egs p) +
        ((posts.filter (fun p => !(isDuplicate egs p))).map
          (applyAnalysis env)).countP (fun q => !(env.createOk q)) := by
  intro posts
  induction posts with
  | nil => exact ⟨rfl, rfl, rfl⟩
  | cons post rest ih =>
    obtain ⟨ih1, ih2, ih3⟩ := ih
    simp only [processPosts, List.filter_cons, List.countP_cons]
    cases hd : isDuplicate egs post
    · simp only [Bool.not_false, if_true, Bool.false_eq_true, if_false,
        List.map_cons, List.countP_cons]
      cases hc : env.createOk (applyAnalysis env post)
      · simp only [Bool.false_eq_true, if_false]
        refine ⟨by rw [ih1],
          by have := ih2; simp only [List.length_cons]; omega, ?_⟩
        simp [hc]
        have := ih3
        simp only [List.countP_map] at this
        omega
      · simp only [if_true]
        refine ⟨by rw [ih1],
          by have := ih2; simp only [List.length_cons]; omega, ?_⟩
        simp [hc]
        have := ih3
        simp only [List.countP_map] at this
        omega
    · simp only [if_true, Bool.not_true, Bool.false_eq_true, if_false]
      refine ⟨ih1, by have := ih2; simp only [List.length_cons]; omega, ?_⟩
      simp
      have := ih3
      simp only [List.countP_map] at this ⊢
      omega

/-- Candidate posts of a run, naming the converter subterm of
crawlSingleFeed. -/
def candidatePosts (env : CrawlEnv) (feed : InspirationFeed)
    (items : List RSSItem) : List CreatePostRequest :=
  convertToInspirationPosts env.extractOracle feed.id items

/-- The existing-GUID membership set of a run, naming the subterm of
crawlSingleFeed (an errored CMS fetch degrades to the empty list). -/
def existingGUIDSet (env : CrawlEnv) : List (List Char) :=
  (match env.existingPosts with
   | .ok l => l
   | .error _ => []).filterMap (fun p : InspirationFeedPost => p.guid)

lemma crawlSingleFeed_ok (env : CrawlEnv) (feed : InspirationFeed)
    (items : List RSSItem) (hp : env.parseFeed = .ok items)
    (hne : items.length ≠ 0) :
    crawlSingleFeed env feed =
      (⟨feed.id, true, false, items.length,
        (processPosts env (existingGUIDSet env) (candidatePosts env feed items)).1,
        (processPosts env (existingGUIDSet env) (candidatePosts env feed items)).2.1⟩,
       (processPosts env (existingGUIDSet env) (candidatePosts env feed items)).2.2) := by
  unfold crawlSingleFeed
  simp only [hp]
  rw [if_neg hne]
  rfl

/-- The feed of the witness runs. -/
def witnessFeed : InspirationFeed :=
  ⟨"feed1".toList, "Feed".toList, "https://example.com/rss".toList, true, none, 60⟩

/-- The post built from witnessGoodItem by the converter with an
extraction oracle that always fails. -/
def witnessPost : CreatePostRequest :=
  ⟨"feed1".toList, "Hello".toList, none, none, "https://example.com/a".toList,
   none, none, some ("https://example.com/a".toList), none, none, none, none⟩

lemma convert_witnessGoodItem :
    convertToInspirationPosts (fun _ => none) ("feed1".toList) [witnessGoodItem] =
      [witnessPost] := by
  have e1 : cleanString ("Hello".toList) = "Hello".toList := by
    rw [cleanString_of_no_tags _ (by decide)]
    decide
  have e2 : cleanString ("https://example.com/a".toList) =
      "https://example.com/a".toList := by
    rw [cleanString_of_no_tags _ (by decide)]
    decide
  have e3 : cleanString ([] : List Char) = [] := by
    rw [cleanString_of_no_tags _ (by decide)]
    decide
  simp only [convertToInspirationPosts, buildPost, buildPost.fallbackA,
    buildPost.fallbackB, witnessGoodItem, e1, e2, e3]
  decide

/-- C1: no candidate post whose GUID is in the existing-GUID set is ever
handed to CreateInspirationFeedPost; every candidate is accounted as
added or skipped, duplicates and failed creations landing in
PostsSkipped; and when every candidate's GUID is already present the
run submits nothing and adds zero posts. -/
theorem crawlSingleFeed_dedup (env : CrawlEnv) (feed : InspirationFeed)
    (items : List RSSItem) (hp : env.parseFeed = .ok items) :
    (∀ q ∈ (crawlSingleFeed env feed).2, ∀ g, q.guid = some g →
       (existingGUIDSet env).contains g = false) ∧
    (items.length ≠ 0 →
       (crawlSingleFeed env feed).1.postsAdded +
         (crawlSingleFeed env feed).1.postsSkipped =
         (candidatePosts env feed items).length ∧
       (crawlSingleFeed env feed).1.postsSkipped =
         (candidatePosts env feed items).countP
           (fun p => isDuplicate (existingGUIDSet env) p) +
         (((candidatePosts env feed items).filter
             (fun p => !(isDuplicate (existingGUIDSet env) p))).map
           (applyAnalysis env)).countP (fun q => !(env.createOk q))) ∧
    ((∀ p ∈ candidatePosts env feed items,
        isDuplicate (existingGUIDSet env) p = true) →
       (crawlSingleFeed env feed).2 = [] ∧
       (crawlSingleFeed env feed).1.postsAdded = 0) := by
  by_cases hne : items.length = 0
  · have hcs : crawlSingleFeed env feed = (⟨feed.id, true, false, 0, 0, 0⟩, []) := by
      unfold crawlSingleFeed
      simp only [hp]
      rw [if_pos hne]
    refine ⟨?_, ?_, ?_⟩
    · intro q hq
      rw [hcs] at hq
      simp at hq
    · intro h
      exact absurd hne h
    · intro _
      rw [hcs]
      exact ⟨rfl, rfl⟩
  · have hcs := crawlSingleFeed_ok env feed items hp hne
    obtain ⟨hsub, hcount, hskip⟩ :=
      processPosts_spec env (existingGUIDSet env) (candidatePosts env feed items)
    refine ⟨?_, ?_, ?_⟩
    · intro q hq g hg
      rw [hcs] at hq
      simp only at hq
      rw [hsub] at hq
      obtain ⟨p, hpmem, hpeq⟩ := List.mem_map.mp hq
      obtain ⟨hpin, hpnd⟩ := List.mem_filter.mp hpmem
      have hguid : p.guid = some g := by
        rw [← applyAnalysis_guid env p, hpeq, hg]
      have : isDuplicate (existingGUIDSet env) p = false := by
        simpa using hpnd
      unfold isDuplicate at this
      rw [hguid] at this
      exact this
    · intro _
      rw [hcs]
      exact ⟨hcount, hskip⟩
    · intro hall
      have hfilter : (candidatePosts env feed items).filter
          (fun p => !(isDuplicate (existingGUIDSet env) p)) = [] := by
        rw [List.filter_eq_nil_iff]
        intro a ha
        simp [hall a ha]
      have hcountall : (candidatePosts env feed items).countP
          (fun p => isDuplicate (existingGUIDSet env) p) =
          (candidatePosts env feed items).length := by
        rw [List.countP_eq_length]
        exact hall
      rw [hcs]
      constructor
      · simp only
        rw [hsub, hfilter]
        rfl
      · simp only
        rw [hfilter] at hskip
        simp only [List.map_nil, List.countP_nil] at hskip
        omega

/-- The witness environment whose single existing post already carries
the candidate's GUID. -/
def witnessDupEnv : CrawlEnv :=
  ⟨.ok [witnessGoodItem], fun _ => none,
   .ok [⟨some ("https://example.com/a".toList)⟩],
   fun _ => .failed, fun _ => true, false, false⟩

/-- Witness for C1: with the candidate's GUID already present, the run
submits nothing and adds zero posts. -/
theorem crawlSingleFeed_dedup_witness :
    (crawlSingleFeed witnessDupEnv witnessFeed).2 = [] ∧
    (crawlSingleFeed witnessDupEnv witnessFeed).1.postsAdded = 0 := by
  have h := crawlSingleFeed_dedup witnessDupEnv witnessFeed [witnessGoodItem] rfl
  apply h.2.2
  intro p hpmem
  have hconv : candidatePosts witnessDupEnv witnessFeed [witnessGoodItem] =
      [witnessPost] := convert_witnessGoodItem
  rw [hconv] at hpmem
  simp only [List.mem_singleton] at hpmem
  subst hpmem
  decide

lemma applyAnalysis_disabled (env : CrawlEnv) (p : CreatePostRequest)
    (h : (env.enableContentAnalysis && env.llmClientPresent) = false) :
    applyAnalysis env p =
      {p with isPrimaryReporting := some true, originalSourceName := none} := by
  unfold applyAnalysis
  rw [h]
  simp

lemma applyAnalysis_failed (env : CrawlEnv) (p : CreatePostRequest)
    (h : (env.enableContentAnalysis && env.llmClientPresent) = true)
    (ha : env.analyze p = .failed) :
    applyAnalysis env p =
      {p with isPrimaryReporting := some false, originalSourceName := none} := by
  unfold applyAnalysis
  rw [h, ha]
  rfl

lemma applyAnalysis_ok (env : CrawlEnv) (p : CreatePostRequest)
    (a : ContentAnalysisResponse)
    (h : (env.enableContentAnalysis && env.llmClientPresent) = true)
    (ha : env.analyze p = .ok a) :
    applyAnalysis env p =
      {p with isPrimaryReporting := some a.isPrimaryReporting,
              originalSourceName := a.originalSourceName} := by
  unfold applyAnalysis
  rw [h, ha]
  rfl

lemma applyAnalysis_title (env : CrawlEnv) (post : CreatePostRequest) :
    (applyAnalysis env post).title = post.title := by
  unfold applyAnalysis
  split
  · split <;> rfl
  · rfl

lemma applyAnalysis_url (env : CrawlEnv) (post : CreatePostRequest) :
    (applyAnalysis env post).url = post.url := by
  unfold applyAnalysis
  split
  · split <;> rfl
  · rfl

/-- C3: every non-duplicate candidate is submitted after the classifier
step, with its title, URL and GUID unchanged; the submitted copy
carries primary-reporting true and no source when analysis is disabled
or the client is absent, primary-reporting false and no source when the
classifier call errors, and the classifier's verdict when the call
succeeds. -/
theorem crawlSingleFeed_classifier_policy (env : CrawlEnv) (feed : InspirationFeed)
    (items : List RSSItem) (hp : env.parseFeed = .ok items)
    (hne : items.length ≠ 0) :
    ∀ p ∈ candidatePosts env feed items,
      isDuplicate (existingGUIDSet env) p = false →
      (applyAnalysis env p ∈ (crawlSingleFeed env feed).2 ∧
       (applyAnalysis env p).title = p.title ∧
       (applyAnalysis env p).url = p.url ∧
       (applyAnalysis env p).guid = p.guid ∧
       (¬(env.enableContentAnalysis = true ∧ env.llmClientPresent = true) →
         (applyAnalysis env p).isPrimaryReporting = some true ∧
         (applyAnalysis env p).originalSourceName = none) ∧
       (env.enableContentAnalysis = true → env.llmClientPresent = true →
         env.analyze p = .failed →
         (applyAnalysis env p).isPrimaryReporting = some false ∧
         (applyAnalysis env p).originalSourceName = none) ∧
       (∀ a, env.enableContentAnalysis = true → env.llmClientPresent = true →
         env.analyze p = .ok a →
         (applyAnalysis env p).isPrimaryReporting = some a.isPrimaryReporting ∧
         (applyAnalysis env p).originalSourceName = a.originalSourceName)) := by
  intro p hpmem hdup
  have hcs := crawlSingleFeed_ok env feed items hp hne
  obtain ⟨hsub, _, _⟩ :=
    processPosts_spec env (existingGUIDSet env) (candidatePosts env feed items)
  refine ⟨?_, applyAnalysis_title .., applyAnalysis_url .., applyAnalysis_guid ..,
    ?_, ?_, ?_⟩
  · rw [hcs]
    simp only
    rw [hsub]
    exact List.mem_map_of_mem _ (List.mem_filter.mpr ⟨hpmem, by simp [hdup]⟩)
  · intro hnot
    have hfalse : (env.enableContentAnalysis && env.llmClientPresent) = false := by
      cases he : env.enableContentAnalysis
      · simp
      · cases hl : env.llmClientPresent
        · simp
        · exact absurd ⟨he, hl⟩ hnot
    rw [applyAnalysis_disabled env p hfalse]
    exact ⟨rfl, rfl⟩
  · intro he hl ha
    rw [applyAnalysis_failed env p (by rw [he, hl]; rfl) ha]
    exact ⟨rfl, rfl⟩
  · intro a he hl ha
    rw [applyAnalysis_ok env p a (by rw [he, hl]; rfl) ha]
    exact ⟨rfl, rfl⟩

/-- The witness environment with no existing posts and analysis
disabled. -/
def witnessFreshEnv : CrawlEnv :=
  ⟨.ok [witnessGoodItem], fun _ => none, .ok [],
   fun _ => .failed, fun _ => true, false, false⟩

/-- Witness for C3: with analysis disabled, the non-duplicate candidate
is submitted with primary-reporting true and no source name. -/
theorem crawlSingleFeed_classifier_policy_witness :
    applyAnalysis witnessFreshEnv witnessPost ∈
      (crawlSingleFeed witnessFreshEnv witnessFeed).2 ∧
    (applyAnalysis witnessFreshEnv witnessPost).isPrimaryReporting = some true ∧
    (applyAnalysis witnessFreshEnv witnessPost).originalSourceName = none := by
  have hconv : candidatePosts witnessFreshEnv witnessFeed [witnessGoodItem] =
      [witnessPost] := convert_witnessGoodItem
  have h := crawlSingleFeed_classifier_policy witnessFreshEnv witnessFeed
    [witnessGoodItem] rfl (by decide) witnessPost (by rw [hconv]; simp) (by decide)
  refine ⟨h.1, ?_⟩
  have hd := h.2.2.2.2.1 (by decide)
  exact hd

/-- The FeedCache state (service.go): cached feeds, last refresh
instant, TTL.  Instants and durations are modelled as integers. -/
structure FeedCacheState where
  feeds : List InspirationFeed
  lastUpdate : Int
  ttl : Int
deriving DecidableEq

/-- Shallow embedding of FeedCache.GetFeeds (service.go): the freshness
check under the read lock at instant now1 (time.Since(lastUpdate) <
ttl and a non-empty cache), the double-checked re-test at instant now2
after taking the write lock, then the upstream fetch, whose success
replaces the cached set and stamps the refresh time and whose failure
returns the error without touching the state.  The third component
records whether an upstream fetch was issued. -/
def getFeeds (st : FeedCacheState) (now1 now2 : Int)
    (fetch : Except Unit (List InspirationFeed)) :
    Except Unit (List InspirationFeed) × FeedCacheState × Bool :=
  if now1 - st.lastUpdate < st.ttl ∧ st.feeds ≠ [] then (.ok st.feeds, st, false)
  else if now2 - st.lastUpdate < st.ttl ∧ st.feeds ≠ [] then (.ok st.feeds, st, false)
  else
    match fetch with
    | .error e => (.error e, st, true)
    | .ok feeds => (.ok feeds, {st with feeds := feeds, lastUpdate := now2}, true)

lemma getFeeds_fetched (st : FeedCacheState) (now1 now2 : Int)
    (f : List InspirationFeed)
    (h : (getFeeds st now1 now2 (.ok f)).2.2 = true) :
    getFeeds st now1 now2 (.ok f) =
      (.ok f, {st with feeds := f, lastUpdate := now2}, true) := by
  unfold getFeeds at h ⊢
  split_ifs at h ⊢
  rfl

/-- C4: a fresh, non-empty cache is returned without an upstream fetch
and without state change; a failed refresh returns the error and never
mutates the cached set or the stamp; and after a successful refresh at
instant t0 with a non-empty result, a second call within the TTL
window issues no further fetch and returns the refreshed set, so the
two calls issue exactly one fetch between them. -/
theorem feedCache_getFeeds_spec :
    (∀ (st : FeedCacheState) (now1 now2 : Int)
       (fetch : Except Unit (List InspirationFeed)),
       now1 - st.lastUpdate < st.ttl → st.feeds ≠ [] →
       getFeeds st now1 now2 fetch = (.ok st.feeds, st, false)) ∧
    (∀ (st : FeedCacheState) (now1 now2 : Int) (e : Unit),
       (getFeeds st now1 now2 (.error e)).2.1 = st) ∧
    (∀ (st : FeedCacheState) (now1 now2 : Int) (e : Unit),
       ¬(now1 - st.lastUpdate < st.ttl ∧ st.feeds ≠ []) →
       ¬(now2 - st.lastUpdate < st.ttl ∧ st.feeds ≠ []) →
       getFeeds st now1 now2 (.error e) = (.error e, st, true)) ∧
    (∀ (st : FeedCacheState) (t0a t0b t1a t1b : Int)
       (feeds1 : List InspirationFeed) (fetch2 : Except Unit (List InspirationFeed)),
       feeds1 ≠ [] →
       (getFeeds st t0a t0b (.ok feeds1)).2.2 = true →
       t1a - t0b < st.ttl →
       getFeeds (getFeeds st t0a t0b (.ok feeds1)).2.1 t1a t1b fetch2 =
         (.ok feeds1, (getFeeds st t0a t0b (.ok feeds1)).2.1, false)) := by
  refine ⟨?_, ?_, ?_, ?_⟩
  · intro st now1 now2 fetch h1 h2
    unfold getFeeds
    rw [if_pos ⟨h1, h2⟩]
  · intro st now1 now2 e
    unfold getFeeds
    split_ifs <;> rfl
  · intro st now1 now2 e h1 h2
    unfold getFeeds
    rw [if_neg h1, if_neg h2]
  · intro st t0a t0b t1a t1b feeds1 fetch2 hne hfetched hwin
    rw [getFeeds_fetched st t0a t0b feeds1 hfetched]
    unfold getFeeds
    rw [if_pos ⟨by simpa using hwin, by simpa using hne⟩]

/-- Witness for C4 at concrete instants: an empty cache refreshed at
instant 100 with TTL 300 serves a second call at instant 200 from the
cache, and a failed refresh leaves the state unchanged. -/
theorem feedCache_getFeeds_spec_witness :
    getFeeds ⟨[witnessFeed], 100, 300⟩ 200 200 (.error ()) =
      (.ok [witnessFeed], ⟨[witnessFeed], 100, 300⟩, false) ∧
    (getFeeds ⟨[], 0, 300⟩ 1000 1000 (.error ())).2.1 = ⟨[], 0, 300⟩ ∧
    getFeeds ⟨[], 0, 300⟩ 1000 1000 (.error ()) =
      (.error (), ⟨[], 0, 300⟩, true) ∧
    getFeeds (getFeeds ⟨[], 0, 300⟩ 1000 1000 (.ok [witnessFeed])).2.1 1100 1100
        (.error ()) =
      (.ok [witnessFeed], (getFeeds ⟨[], 0, 300⟩ 1000 1000 (.ok [witnessFeed])).2.1,
       false) := by
  refine ⟨?_, ?_, ?_, ?_⟩
  · exact feedCache_getFeeds_spec.1 ⟨[witnessFeed], 100, 300⟩ 200 200 (.error ())
      (by decide) (by decide)
  · exact feedCache_getFeeds_spec.2.1 ⟨[], 0, 300⟩ 1000 1000 ()
  · exact feedCache_getFeeds_spec.2.2.1 ⟨[], 0, 300⟩ 1000 1000 ()
      (by decide) (by decide)
  · exact feedCache_getFeeds_spec.2.2.2 ⟨[], 0, 300⟩ 1000 1000 1100 1100
      [witnessFeed] (.error ()) (by decide) (by decide) (by decide)

/-- models.CrawlRequest as read by ProcessQueueRequests: id, declared
type string, optional feed id. -/
structure QueueRequest where
  id : List Char
  type : List Char
  feedID : Option (List Char)
deriving DecidableEq

/-- Externally visible calls of one ProcessQueueRequests cycle. -/
inductive QueueEvent
  | dispatchedSingle (feedID : List Char)
  | dispatchedAll
  | acked (id : List Char)
deriving DecidableEq

/-- Collaborator oracles of one ProcessQueueRequests cycle. -/
structure QueueEnv where
  poll : Except Unit (Option QueueRequest)
  crawlFeed : List Char → Except Unit CrawlResult
  crawlAllDue : Except Unit (List CrawlResult)

/-- Shallow embedding of ProcessQueueRequests (service.go): poll once;
no request is a successful no-op; a request is dispatched by declared
type ("single" needs a feed id, unknown types are ignored), with
dispatch failures only logged, and is then acknowledged exactly once;
the collected results are only logged.  The trace records dispatches
and the acknowledgement in call order. -/
def processQueueRequests (env : QueueEnv) :
    Except Unit Unit × List QueueEvent × List CrawlResult :=
  match env.poll with
  | .error e => (.error e, [], [])
  | .ok none => (.ok (), [], [])
  | .ok (some request) =>
    let dispatched :=
      if request.type = "single".toList then
        match request.feedID with
        | none => ([], [])
        | some fid =>
          match env.crawlFeed fid with
          | .error _ => ([QueueEvent.dispatchedSingle fid], [])
          | .ok r => ([QueueEvent.dispatchedSingle fid], [r])
      else if request.type = "all".toList then
        match env.crawlAllDue with
        | .error _ => ([QueueEvent.dispatchedAll], [])
        | .ok rs => ([QueueEvent.dispatchedAll], rs)
      else ([], [])
    (.ok (), dispatched.1 ++ [QueueEvent.acked request.id], dispatched.2)

/-- C8: whenever the poll yields a request, the cycle acknowledges
exactly that request's id exactly once (and performs no other
acknowledgement), whatever the request type, missing feed id, or
dispatch outcome, and the cycle returns success; when the poll yields
no request, the cycle is a successful no-op with no dispatch and no
acknowledgement. -/
theorem processQueueRequests_ack_once :
    (∀ (env : QueueEnv) (req : QueueRequest), env.poll = .ok (some req) →
       (processQueueRequests env).2.1.countP
         (fun ev => ev = QueueEvent.acked req.id) = 1 ∧
       (processQueueRequests env).2.1.countP
         (fun ev => match ev with | QueueEvent.acked _ => true | _ => false) = 1 ∧
       (processQueueRequests env).1 = .ok ()) ∧
    (∀ env : QueueEnv, env.poll = .ok none →
       processQueueRequests env = (.ok (), [], [])) := by
  constructor
  · intro env req hpoll
    unfold processQueueRequests
    simp only [hpoll]
    by_cases h1 : req.type = "single".toList
    · rw [if_pos h1]
      cases hf : req.feedID with
      | none => simp [hf]
      | some fid =>
        cases hc : env.crawlFeed fid with
        | error e => simp [hf, hc]
        | ok r => simp [hf, hc]
    · rw [if_neg h1]
      by_cases h2 : req.type = "all".toList
      · rw [if_pos h2]
        cases hc : env.crawlAllDue with
        | error e => simp [hc]
        | ok rs => simp [hc]
      · rw [if_neg h2]
        simp
  · intro env hpoll
    unfold processQueueRequests
    simp only [hpoll]

/-- A queue environment whose polled "single" request dispatches a
crawl that fails. -/
def witnessQueueEnv : QueueEnv :=
  ⟨.ok (some ⟨"r1".toList, "single".toList, some ("feed1".toList)⟩),
   fun _ => .error (), .error ()⟩

/-- An idle queue environment. -/
def witnessIdleQueueEnv : QueueEnv := ⟨.ok none, fun _ => .error (), .error ()⟩

/-- Witness for C8: the failed dispatch is still acknowledged exactly
once and the cycle succeeds; an empty poll is a successful no-op. -/
theorem processQueueRequests_ack_once_witness :
    (processQueueRequests witnessQueueEnv).2.1.countP
      (fun ev => ev = QueueEvent.acked ("r1".toList)) = 1 ∧
    (processQueueRequests witnessQueueEnv).1 = .ok () ∧
    processQueueRequests witnessIdleQueueEnv = (.ok (), [], []) := by
  have h := processQueueRequests_ack_once.1 witnessQueueEnv
    ⟨"r1".toList, "single".toList, some ("feed1".toList)⟩ rfl
  exact ⟨h.1, h.2.2, processQueueRequests_ack_once.2 witnessIdleQueueEnv rfl⟩

end Crawler
namespace Crawler
/-- Shallow embedding of postProcess (html_cleaner.go).  The four Go
regexp rewrites (whitespace collapse, empty paragraph, div and span
shell removal, line-break collapse, comment strip) are abstracted as
the transform parameter, Go regexp semantics being outside this
embedding; the final trim and the 100000-character cap with the
ellipsis marker are modelled exactly. -/
def postProcess (transform : List Char → List Char) (content : List Char) : List Char :=
  if 100000 < (goTrimSpace (transform content)).length then
    (goTrimSpace (transform content)).take 100000 ++ "...".toList
  else goTrimSpace (transform content)

/-- Shallow embedding of CleanHTML (html_cleaner.go): empty input
returns empty at once; otherwise both the parse-success path (prune,
render, bluemonday sanitize) and the parse-failure fallback basicClean
(regexp strip plus sanitize), abstracted as the pipeline parameter, end
in postProcess. -/
def cleanHTML (transform pipeline : List Char → List Char)
    (rawHTML : List Char) : List Char :=
  if rawHTML = [] then [] else postProcess transform (pipeline rawHTML)

/-- C9: the output of CleanHTML never exceeds 100003 characters, and
whenever the trimmed post-processed content exceeds 100000 characters
the output is exactly its first 100000 characters followed by the
ellipsis marker. -/
theorem cleanHTML_length_cap :
    ∀ (transform pipeline : List Char → List Char) (rawHTML : List Char),
      (cleanHTML transform pipeline rawHTML).length ≤ 100003 ∧
      (rawHTML ≠ [] →
        100000 < (goTrimSpace (transform (pipeline rawHTML))).length →
        cleanHTML transform pipeline rawHTML =
          (goTrimSpace (transform (pipeline rawHTML))).take 100000 ++
            "...".toList) := by
  intro transform pipeline rawHTML
  constructor
  · unfold cleanHTML postProcess
    split_ifs with h1 h2
    · simp
    · simp only [List.length_append, List.length_take]
      have : ("...".toList).length = 3 := rfl
      omega
    · omega
  · intro hne hover
    unfold cleanHTML postProcess
    rw [if_neg hne, if_pos hover]

/-- Trimming a run of a non-whitespace character changes nothing. -/
lemma goTrimSpace_replicate (n : Nat) (c : Char) (hc : goIsSpace c = false) :
    goTrimSpace (List.replicate n c) = List.replicate n c := by
  cases n with
  | zero => rfl
  | succ n =>
    apply goTrimSpace_id
    · intro d hd
      rw [List.head?_replicate] at hd
      simp at hd
      rw [← hd]
      exact hc
    · intro d hd
      rw [List.replicate_succ' n c, List.getLast?_concat] at hd
      cases hd
      exact hc

/-- Witness for C9: a transform producing 100001 characters is capped
to exactly 100003 output characters. -/
theorem cleanHTML_length_cap_witness :
    (cleanHTML (fun _ => List.replicate 100001 'a') id ("x".toList)).length =
      100003 := by
  have htrim : goTrimSpace (List.replicate 100001 'a') =
      List.replicate 100001 'a' := goTrimSpace_replicate 100001 'a' (by decide)
  have h := (cleanHTML_length_cap (fun _ => List.replicate 100001 'a') id
    ("x".toList)).2 (by decide)
    (by
      rw [htrim, List.length_replicate]
      decide)
  rw [htrim] at h
  rw [h, List.length_append, List.length_take, List.length_replicate]
  decide
end Crawler
namespace Crawler
/-- Phase of the goroutine spawned for one due-feed index in
CrawlAllDueFeeds: not yet at the semaphore send, holding a semaphore
slot while crawlSingleFeed runs, slot released with the crawl result
computed but the slice write still pending (the Go code releases
before writing results[index]), or finished. -/
inductive GoPhase (R : Type) where
  | idle : GoPhase R
  | running : GoPhase R
  | released : R → GoPhase R
  | done : GoPhase R

def GoPhase.isRunning {R : Type} : GoPhase R → Bool
  | GoPhase.running => true
  | _ => false

/-- One interleaved state of CrawlAllDueFeeds with n due feeds: the
phase of each spawned goroutine, the free capacity of the semaphore
channel (buffer size 3), and the results slice (none = not yet
written). -/
structure PoolState (n : Nat) (R : Type) where
  phase : Fin n → GoPhase R
  sem : Nat
  results : Fin n → Option R

/-- The state right after the spawn loop: every goroutine idle, all 3
semaphore slots free, the results slice zeroed. -/
def initPool (n : Nat) (R : Type) : PoolState n R :=
  ⟨fun _ => GoPhase.idle, 3, fun _ => none⟩

/-- Small-step relation of the goroutine pool.  acquire models the
blocking send on the semaphore channel (enabled only when a slot is
free), finishCrawl the return of crawlSingleFeed together with the
receive that releases the slot, and write the assignment
results[index] = *result that happens after the release. -/
inductive PoolStep {n : Nat} {R : Type} (crawl : Fin n → R) :
    PoolState n R → PoolState n R → Prop where
  | acquire (s : PoolState n R) (i : Fin n)
      (hp : s.phase i = GoPhase.idle) (hs : 0 < s.sem) :
      PoolStep crawl s
        ⟨Function.update s.phase i GoPhase.running, s.sem - 1, s.results⟩
  | finishCrawl (s : PoolState n R) (i : Fin n)
      (hp : s.phase i = GoPhase.running) :
      PoolStep crawl s
        ⟨Function.update s.phase i (GoPhase.released (crawl i)),
          s.sem + 1, s.results⟩
  | write (s : PoolState n R) (i : Fin n) (r : R)
      (hp : s.phase i = GoPhase.released r) :
      PoolStep crawl s
        ⟨Function.update s.phase i GoPhase.done, s.sem,
          Function.update s.results i (some r)⟩

/-- States reachable by some interleaving of the pool's goroutines. -/
def poolReachable {n : Nat} {R : Type} (crawl : Fin n → R)
    (s : PoolState n R) : Prop :=
  Relation.ReflTransGen (PoolStep crawl) (initPool n R) s

/-- Number of crawls simultaneously in flight: goroutines between the
semaphore acquire and its release. -/
def inFlight {n : Nat} {R : Type} (s : PoolState n R) : Nat :=
  (List.finRange n).countP (fun i => (s.phase i).isRunning)

lemma countP_update_not_mem {n : Nat} {R : Type} (f : Fin n → GoPhase R)
    (i : Fin n) (v : GoPhase R) (p : GoPhase R → Bool) :
    ∀ l : List (Fin n), i ∉ l →
      l.countP (fun j => p (Function.update f i v j)) =
        l.countP (fun j => p (f j)) := by
  intro l
  induction l with
  | nil => intro _; rfl
  | cons a t ih =>
    intro h
    rw [List.mem_cons, not_or] at h
    rw [List.countP_cons, List.countP_cons, ih h.2,
      Function.update_noteq (Ne.symm h.1)]

lemma countP_update_mem {n : Nat} {R : Type} (f : Fin n → GoPhase R)
    (i : Fin n) (v : GoPhase R) (p : GoPhase R → Bool) :
    ∀ l : List (Fin n), l.Nodup → i ∈ l →
      l.countP (fun j => p (Function.update f i v j)) +
          (if p (f i) then 1 else 0) =
        l.countP (fun j => p (f j)) + (if p v then 1 else 0) := by
  intro l
  induction l with
  | nil => intro _ h; cases h
  | cons a t ih =>
    intro hnd hmem
    rw [List.nodup_cons] at hnd
    rw [List.mem_cons] at hmem
    rcases hmem with hia | hit
    · subst hia
      rw [List.countP_cons, List.countP_cons, Function.update_same,
        countP_update_not_mem f i v p t hnd.1]
      omega
    · have hai : a ≠ i := fun h => hnd.1 (h ▸ hit)
      rw [List.countP_cons, List.countP_cons, Function.update_noteq hai]
      have := ih hnd.2 hit
      omega

lemma inFlight_update {n : Nat} {R : Type} (s : PoolState n R) (i : Fin n)
    (v : GoPhase R) (m : Nat) (res : Fin n → Option R) :
    inFlight (⟨Function.update s.phase i v, m, res⟩ : PoolState n R) +
        (if (s.phase i).isRunning then 1 else 0) =
      inFlight s + (if v.isRunning then 1 else 0) :=
  countP_update_mem s.phase i v (fun g => g.isRunning) (List.finRange n)
    (List.nodup_finRange n) (List.mem_finRange i)

/-- The pool invariant: the free semaphore capacity plus the crawls in
flight always totals 3, and the results slot of each index reflects
its phase (none before the write, the crawl of that index after). -/
def poolInv {n : Nat} {R : Type} (crawl : Fin n → R)
    (s : PoolState n R) : Prop :=
  s.sem + inFlight s = 3 ∧
  ∀ i : Fin n,
    (s.phase i = GoPhase.idle → s.results i = none) ∧
    (s.phase i = GoPhase.running → s.results i = none) ∧
    (∀ r, s.phase i = GoPhase.released r → r = crawl i ∧ s.results i = none) ∧
    (s.phase i = GoPhase.done → s.results i = some (crawl i))

lemma poolInv_init {n : Nat} {R : Type} (crawl : Fin n → R) :
    poolInv crawl (initPool n R) := by
  constructor
  · have h0 : inFlight (initPool n R) = 0 := by
      unfold inFlight initPool
      exact List.countP_eq_zero.mpr (fun a _ => by simp [GoPhase.isRunning])
    rw [h0]
    rfl
  · intro i
    constructor
    · intro _; rfl
    constructor
    · intro h; simp [initPool] at h
    constructor
    · intro r h; simp [initPool] at h
    · intro h; simp [initPool] at h

lemma poolInv_step {n : Nat} {R : Type} {crawl : Fin n → R}
    {s t : PoolState n R} (hinv : poolInv crawl s)
    (hst : PoolStep crawl s t) : poolInv crawl t := by
  obtain ⟨hsem, hres⟩ := hinv
  cases hst with
  | acquire i hp hs =>
    constructor
    · have hcount := inFlight_update s i GoPhase.running (s.sem - 1) s.results
      rw [hp] at hcount
      simp [GoPhase.isRunning] at hcount
      show s.sem - 1 + inFlight
        (⟨Function.update s.phase i GoPhase.running, s.sem - 1,
          s.results⟩ : PoolState n R) = 3
      omega
    · intro j
      by_cases hj : j = i
      · subst hj
        refine ⟨fun h => ?_, fun _ => (hres j).1 hp, fun r2 h => ?_,
          fun h => ?_⟩
        · simp at h
        · simp at h
        · simp at h
      · have hq : Function.update s.phase i GoPhase.running j = s.phase j :=
          Function.update_noteq hj _ _
        refine ⟨fun h => ?_, fun h => ?_, fun r2 h => ?_, fun h => ?_⟩
        · exact (hres j).1 (hq.symm.trans h)
        · exact (hres j).2.1 (hq.symm.trans h)
        · exact (hres j).2.2.1 r2 (hq.symm.trans h)
        · exact (hres j).2.2.2 (hq.symm.trans h)
  | finishCrawl i hp =>
    constructor
    · have hcount := inFlight_update s i (GoPhase.released (crawl i))
        (s.sem + 1) s.results
      rw [hp] at hcount
      simp [GoPhase.isRunning] at hcount
      show s.sem + 1 + inFlight
        (⟨Function.update s.phase i (GoPhase.released (crawl i)), s.sem + 1,
          s.results⟩ : PoolState n R) = 3
      omega
    · intro j
      by_cases hj : j = i
      · subst hj
        refine ⟨fun h => ?_, fun h => ?_, fun r2 h => ?_, fun h => ?_⟩
        · simp at h
        · simp at h
        · have hq : Function.update s.phase j
              (GoPhase.released (crawl j)) j = GoPhase.released (crawl j) :=
            Function.update_same _ _ _
          have h' : GoPhase.released (crawl j) = GoPhase.released r2 :=
            hq.symm.trans h
          cases h'
          exact ⟨rfl, (hres j).2.1 hp⟩
        · simp at h
      · have hq : Function.update s.phase i (GoPhase.released (crawl i)) j =
            s.phase j := Function.update_noteq hj _ _
        refine ⟨fun h => ?_, fun h => ?_, fun r2 h => ?_, fun h => ?_⟩
        · exact (hres j).1 (hq.symm.trans h)
        · exact (hres j).2.1 (hq.symm.trans h)
        · exact (hres j).2.2.1 r2 (hq.symm.trans h)
        · exact (hres j).2.2.2 (hq.symm.trans h)
  | write i r hp =>
    have hri : r = crawl i := ((hres i).2.2.1 r hp).1
    constructor
    · have hcount := inFlight_update s i GoPhase.done s.sem
        (Function.update s.results i (some r))
      rw [hp] at hcount
      simp [GoPhase.isRunning] at hcount
      show s.sem + inFlight
        (⟨Function.update s.phase i GoPhase.done, s.sem,
          Function.update s.results i (some r)⟩ : PoolState n R) = 3
      omega
    · intro j
      by_cases hj : j = i
      · subst hj
        refine ⟨fun h => ?_, fun h => ?_, fun r2 h => ?_, fun _ => ?_⟩
        · simp at h
        · simp at h
        · simp at h
        · show Function.update s.results j (some r) j = some (crawl j)
          rw [Function.update_same, hri]
      · have hq : Function.update s.phase i GoPhase.done j = s.phase j :=
          Function.update_noteq hj _ _
        refine ⟨fun h => ?_, fun h => ?_, fun r2 h => ?_, fun h => ?_⟩
        · show Function.update s.results i (some r) j = none
          rw [Function.update_noteq hj]
          exact (hres j).1 (hq.symm.trans h)
        · show Function.update s.results i (some r) j = none
          rw [Function.update_noteq hj]
          exact (hres j).2.1 (hq.symm.trans h)
        · refine ⟨((hres j).2.2.1 r2 (hq.symm.trans h)).1, ?_⟩
          show Function.update s.results i (some r) j = none
          rw [Function.update_noteq hj]
          exact ((hres j).2.2.1 r2 (hq.symm.trans h)).2
        · show Function.update s.results i (some r) j = some (crawl j)
          rw [Function.update_noteq hj]
          exact (hres j).2.2.2 (hq.symm.trans h)

lemma poolInv_reachable {n : Nat} {R : Type} {crawl : Fin n → R}
    {s : PoolState n R} (h : poolReachable crawl s) : poolInv crawl s := by
  unfold poolReachable at h
  induction h with
  | refl => exact poolInv_init crawl
  | tail h1 h2 ih => exact poolInv_step ih h2

/-- C5: in every reachable interleaving of CrawlAllDueFeeds with n due
feeds, at most 3 crawls are in flight at once; the results slice has
length n; every written slot i holds exactly the CrawlResult of the
i-th due feed; and once all goroutines have finished the whole slice
is the in-order list of per-feed results, independent of the
interleaving taken. -/
theorem crawlAllDueFeeds_bounded_concurrency (n : Nat)
    (envOf : Fin n → CrawlEnv) (feeds : Fin n → InspirationFeed)
    (s : PoolState n CrawlResult)
    (h : poolReachable (fun i => (crawlSingleFeed (envOf i) (feeds i)).1) s) :
    inFlight s ≤ 3 ∧
    (List.ofFn (fun i => s.results i)).length = n ∧
    (∀ i : Fin n, s.phase i = GoPhase.done →
      s.results i = some (crawlSingleFeed (envOf i) (feeds i)).1) ∧
    ((∀ i : Fin n, s.phase i = GoPhase.done) →
      List.ofFn (fun i => s.results i) =
        List.ofFn (fun i => some (crawlSingleFeed (envOf i) (feeds i)).1)) := by
  have hinv := poolInv_reachable h
  refine ⟨by have := hinv.1; omega, List.length_ofFn _,
    fun i hd => (hinv.2 i).2.2.2 hd, fun hall => ?_⟩
  exact congrArg List.ofFn (funext fun i => (hinv.2 i).2.2.2 (hall i))

/-- A one-feed environment for the concurrency witness: the feed fetch
fails, so the crawl is the errored CrawlResult. -/
def poolEnv : CrawlEnv :=
  ⟨.error (), fun _ => none, .ok [], fun _ => .failed, fun _ => true,
   false, false⟩

def poolFeed : InspirationFeed :=
  ⟨"pf".toList, "PF".toList, "https://example.com/pf".toList, true, none, 60⟩

def poolCrawl : Fin 1 → CrawlResult :=
  fun _ => (crawlSingleFeed poolEnv poolFeed).1

def poolMid : PoolState 1 CrawlResult :=
  ⟨fun _ => GoPhase.running, 2, fun _ => none⟩

def poolRel : PoolState 1 CrawlResult :=
  ⟨fun _ => GoPhase.released (poolCrawl 0), 3, fun _ => none⟩

def poolFinal : PoolState 1 CrawlResult :=
  ⟨fun _ => GoPhase.done, 3, fun _ => some (poolCrawl 0)⟩

lemma pool_state_eq_of_fields {R : Type} (a b : PoolState 1 R)
    (hph : a.phase 0 = b.phase 0) (hs : a.sem = b.sem)
    (hr : a.results 0 = b.results 0) : a = b := by
  obtain ⟨pa, sa, ra⟩ := a
  obtain ⟨pb, sb, rb⟩ := b
  have h1 : pa = pb := by
    funext j
    have hj : j = 0 := Fin.fin_one_eq_zero j
    rw [hj]; exact hph
  have h2 : sa = sb := hs
  have h3 : ra = rb := by
    funext j
    have hj : j = 0 := Fin.fin_one_eq_zero j
    rw [hj]; exact hr
  rw [h1, h2, h3]

lemma poolStep1 : PoolStep poolCrawl (initPool 1 CrawlResult) poolMid := by
  have he : poolMid =
      (⟨Function.update (initPool 1 CrawlResult).phase 0 GoPhase.running,
        (initPool 1 CrawlResult).sem - 1,
        (initPool 1 CrawlResult).results⟩ : PoolState 1 CrawlResult) := by
    apply pool_state_eq_of_fields
    · show GoPhase.running =
        Function.update (initPool 1 CrawlResult).phase 0 GoPhase.running 0
      rw [Function.update_same]
    · rfl
    · rfl
  rw [he]
  exact @PoolStep.acquire 1 CrawlResult poolCrawl (initPool 1 CrawlResult) 0
    rfl (by decide)

lemma poolStep2 : PoolStep poolCrawl poolMid poolRel := by
  have he : poolRel =
      (⟨Function.update poolMid.phase 0 (GoPhase.released (poolCrawl 0)),
        poolMid.sem + 1, poolMid.results⟩ : PoolState 1 CrawlResult) := by
    apply pool_state_eq_of_fields
    · show GoPhase.released (poolCrawl 0) =
        Function.update poolMid.phase 0 (GoPhase.released (poolCrawl 0)) 0
      rw [Function.update_same]
    · rfl
    · rfl
  rw [he]
  exact @PoolStep.finishCrawl 1 CrawlResult poolCrawl poolMid 0 rfl

lemma poolStep3 : PoolStep poolCrawl poolRel poolFinal := by
  have he : poolFinal =
      (⟨Function.update poolRel.phase 0 GoPhase.done, poolRel.sem,
        Function.update poolRel.results 0
          (some (poolCrawl 0))⟩ : PoolState 1 CrawlResult) := by
    apply pool_state_eq_of_fields
    · show GoPhase.done = Function.update poolRel.phase 0 GoPhase.done 0
      rw [Function.update_same]
    · rfl
    · show some (poolCrawl 0) =
        Function.update poolRel.results 0 (some (poolCrawl 0)) 0
      rw [Function.update_same]
  rw [he]
  exact @PoolStep.write 1 CrawlResult poolCrawl poolRel 0 (poolCrawl 0) rfl

lemma poolFinal_reachable : poolReachable poolCrawl poolFinal :=
  Relation.ReflTransGen.tail
    (Relation.ReflTransGen.tail
      (Relation.ReflTransGen.tail Relation.ReflTransGen.refl poolStep1)
      poolStep2)
    poolStep3

/-- Witness for C5: a complete one-feed run reaches the terminal state
with the result of feed 0 written at index 0, never exceeding 3 crawls
in flight. -/
theorem crawlAllDueFeeds_bounded_concurrency_witness :
    inFlight poolFinal ≤ 3 ∧
    poolFinal.results 0 = some (crawlSingleFeed poolEnv poolFeed).1 := by
  have h := crawlAllDueFeeds_bounded_concurrency 1 (fun _ => poolEnv)
    (fun _ => poolFeed) poolFinal poolFinal_reachable
  exact ⟨h.1, h.2.2.1 0 rfl⟩

end Crawler
